import Mathlib

/-!
Shallow embedding of `combine_dependencies.py` and `import_to_neo4j.py`.

Text files are modelled as lists of lines (`List String`, each line without its
trailing newline, exactly as the Python `for line in f` loop sees them after the
scripts' own `strip`/`rstrip` calls).  Python dictionaries are modelled as
association lists in insertion order; Python sets are modelled as
insertion-ordered duplicate-free lists (their iteration order is only ever
observed through `sorted`, which makes the order immaterial).  The Neo4j store
is modelled as an abstract property-graph state with merge-by-value semantics.
-/

set_option maxHeartbeats 1000000

/-! ## Python string primitives -/

/-- Boolean prefix test on character lists (`str.startswith`). -/
def isPrefixB : List Char → List Char → Bool
  | [], _ => true
  | _ :: _, [] => false
  | a :: as, b :: bs => decide (a = b) && isPrefixB as bs

/-- `s.startswith(pre)`. -/
def pyStartswith (s pre : String) : Bool := isPrefixB pre.data s.data

/-- `line.rstrip()` on character lists. -/
def pyrstripL (s : List Char) : List Char := ((s.reverse).dropWhile Char.isWhitespace).reverse

/-- `line.rstrip()`. -/
def pyrstrip (s : String) : String := String.mk (pyrstripL s.data)

/-- `line.strip()` on character lists. -/
def pystripL (s : List Char) : List Char := pyrstripL (s.dropWhile Char.isWhitespace)

/-- `line.strip()`. -/
def pystrip (s : String) : String := String.mk (pystripL s.data)

/-- One left-to-right pass removing every non-overlapping occurrence of `pat`,
exactly like CPython's `str.replace(pat, '')` for a non-empty `pat`: after a
match the scan resumes *after* the removed occurrence (newly formed occurrences
that span a removal boundary are not removed).  The fuel argument is the length
of the scanned list, which bounds the recursion depth. -/
def removeAllAux (pat : List Char) : Nat → List Char → List Char
  | 0, s => s
  | _ + 1, [] => []
  | fuel + 1, c :: cs =>
    if isPrefixB pat (c :: cs) && decide (pat ≠ []) then
      removeAllAux pat fuel (List.drop (pat.length - 1) cs)
    else
      c :: removeAllAux pat fuel cs

/-- `s.replace(pat, '')` for the non-empty literal patterns used by the scripts. -/
def pyRemove (s pat : String) : String :=
  String.mk (removeAllAux pat.data s.data.length s.data)

/-- `s.split(',')` on character lists (separator pieces kept, possibly empty). -/
def splitComma : List Char → List (List Char)
  | [] => [[]]
  | c :: cs =>
    match splitComma cs with
    | t :: ts => if c = ',' then [] :: t :: ts else (c :: t) :: ts
    | [] => [[c]]

/-- `s.split(',')`. -/
def splitCommaStr (s : String) : List String := (splitComma s.data).map String.mk

/-- `line.endswith(':')`. -/
def endsWithColon (s : String) : Bool :=
  match s.data.getLast? with
  | some c => decide (c = ':')
  | none => false

/-- Python truthiness of an optional string (`None` and `""` are falsy). -/
def truthyOpt : Option String → Bool
  | none => false
  | some s => decide (s ≠ "")

/-! ## Association-list dictionary operations (Python `dict` semantics) -/

/-- `m.get(k)` / `k in m`. -/
def dictGet {α : Type} (m : List (String × α)) (k : String) : Option α :=
  match m.find? (fun p => decide (p.1 = k)) with
  | some p => some p.2
  | none => none

/-- The keys of a dictionary, in insertion order. -/
def dictKeys {α : Type} (m : List (String × α)) : List String := m.map (·.1)

/-- `m[k] = v`: overwrite in place if the key exists, else append. -/
def dictSet {α : Type} (m : List (String × α)) (k : String) (v : α) : List (String × α) :=
  if (dictGet m k).isSome then
    m.map (fun p => if p.1 = k then (k, v) else p)
  else m ++ [(k, v)]

/-! ## combine_dependencies.py -/

/-- The inline normalisation `name.replace('lib32-', '')` applied by both
parsers in `combine_dependencies.py` (commented there as "Remove lib32- prefix",
but implemented as a replace-all). -/
def normalizeName (s : String) : String := pyRemove s "lib32-"

/-- `re.match(r'"([^"]+)"\s*->\s*"([^"]+)"', line.strip())`: both capture
groups on success.  The regex is anchored at the start and any trailing text is
ignored; `[^"]+` is a maximal non-empty run of non-quote characters, so the
match is deterministic. -/
def matchEdge (line : String) : Option (String × String) :=
  match pystripL line.data with
  | '"' :: r0 =>
    let n1 := r0.takeWhile (fun c => !decide (c = '"'))
    let r1 := r0.dropWhile (fun c => !decide (c = '"'))
    if n1.isEmpty then none else
    match r1 with
    | '"' :: r2 =>
      match r2.dropWhile Char.isWhitespace with
      | '-' :: '>' :: r4 =>
        match r4.dropWhile Char.isWhitespace with
        | '"' :: r6 =>
          let n2 := r6.takeWhile (fun c => !decide (c = '"'))
          let r7 := r6.dropWhile (fun c => !decide (c = '"'))
          if n2.isEmpty then none else
          match r7 with
          | '"' :: _ => some (String.mk n1, String.mk n2)
          | _ => none
        | _ => none
      | _ => none
    | _ => none
  | _ => none

/-- `dependencies[k].add(v)` on a `defaultdict(set)`: the per-key set is kept as
an insertion-ordered duplicate-free list (`combine_data` only ever reads it
through `sorted`). -/
def addDep (m : List (String × List String)) (k v : String) : List (String × List String) :=
  match dictGet m k with
  | some ds =>
    if v ∈ ds then m else m.map (fun p => if p.1 = k then (p.1, p.2 ++ [v]) else p)
  | none => m ++ [(k, [v])]

/-- `parse_dot_file`: fold the edge regex over the lines. -/
def parse_dot_file (lines : List String) : List (String × List String) :=
  lines.foldl (fun deps line =>
    match matchEdge line with
    | some ab => addDep deps (normalizeName ab.1) (normalizeName ab.2)
    | none => deps) []

/-- `package_layers[cp].append(layer)` with lazy creation of the entry. -/
def appendLayer (m : List (String × List String)) (k v : String) : List (String × List String) :=
  match dictGet m k with
  | some _ => m.map (fun p => if p.1 = k then (p.1, p.2 ++ [v]) else p)
  | none => m ++ [(k, [v])]

/-- One line of `parse_layers_file`'s loop.  State: the accumulated mapping and
`current_package` (`none` initially; note `elif current_package and line:` uses
Python truthiness, so an empty current package name disables accumulation). -/
def layersStep (st : List (String × List String) × Option String) (rawLine : String) :
    List (String × List String) × Option String :=
  let line := pystrip rawLine
  if line = "" ∨ pyStartswith line "WARNING:" ∨ pyStartswith line "NOTE:"
      ∨ pyStartswith line "Summary:" then st
  else if endsWithColon line then
    (st.1, some (normalizeName (String.mk line.data.dropLast)))
  else
    match st.2 with
    | some cp =>
      if cp ≠ "" then
        let tok := line.data.takeWhile (fun c => !c.isWhitespace)
        if tok.isEmpty then st else (appendLayer st.1 cp (String.mk tok), st.2)
      else st
    | none => st

/-- `parse_layers_file`. -/
def parse_layers_file (lines : List String) : List (String × List String) :=
  (lines.foldl layersStep ([], none)).1

/-- One combined record: `{'dependencies': ..., 'layers': ...}`. -/
structure PkgInfo where
  dependencies : List String
  layers : List String
deriving DecidableEq, Repr

/-- Lexicographic comparison of character lists by code point, i.e. Python's
string `<=` (a strict prefix compares smaller). -/
def charListLe : List Char → List Char → Bool
  | [], _ => true
  | _ :: _, [] => false
  | a :: as, b :: bs =>
    if a.toNat < b.toNat then true
    else if b.toNat < a.toNat then false
    else charListLe as bs

/-- Python string `<=`. -/
def strLe (a b : String) : Bool := charListLe a.data b.data

/-- `strLe` as a relation, for `List.insertionSort`. -/
def strLeR (a b : String) : Prop := strLe a b = true

instance decRelStrLeR : DecidableRel strLeR :=
  fun a b => inferInstanceAs (Decidable (strLe a b = true))

/-- Key order used by `sorted(combined_data.items())`; the keys of a dict are
distinct, so the tuple comparison never reaches the (incomparable) values. -/
def pairKeyLe (a b : String × PkgInfo) : Prop := strLe a.1 b.1 = true

instance decRelPairKeyLe : DecidableRel pairKeyLe :=
  fun a b => inferInstanceAs (Decidable (strLe a.1 b.1 = true))

/-- `combine_data`: union of the keyspaces plus every dependency target
(`sorted(all_packages)` iterates the distinct names in ascending order, so the
insertion order of the modelled set is immaterial). -/
def combine_data (dependencies package_layers : List (String × List String)) :
    List (String × PkgInfo) :=
  let all_packages :=
    (dictKeys dependencies ++ dictKeys package_layers
      ++ (dependencies.map (·.2)).flatten).dedup
  (all_packages.insertionSort strLeR).map (fun package =>
    (package,
      { dependencies := ((dictGet dependencies package).getD []).insertionSort strLeR
        layers := (dictGet package_layers package).getD [] }))

/-! ## output_combined_data (the interchange writer) -/

/-- `', '.join(layers)`. -/
def joinComma : List String → String
  | [] => ""
  | [l] => l
  | l :: ls => l ++ ", " ++ joinComma ls

/-- The `  Layers: ...` line of a package block. -/
def layersLine (layers : List String) : String :=
  if layers.isEmpty then "  Layers: (not found in package-layers.txt)"
  else "  Layers: " ++ joinComma layers

/-- One `    - dep (...)` line; the layer annotation is looked up in the full
combined mapping. -/
def depLine (m : List (String × PkgInfo)) (dep : String) : String :=
  let dep_layers := match dictGet m dep with | some info => info.layers | none => []
  if dep_layers.isEmpty then "    - " ++ dep ++ " (layer: unknown)"
  else "    - " ++ dep ++ " (layers: " ++ joinComma dep_layers ++ ")"

/-- The lines written for one package. -/
def packageBlock (m : List (String × PkgInfo)) (p : String × PkgInfo) : List String :=
  ["Package: " ++ p.1, layersLine p.2.layers] ++
    (if p.2.dependencies.isEmpty then ["  Dependencies: none"]
     else "  Dependencies:" :: p.2.dependencies.map (depLine m)) ++ [""]

/-- The two header writes produce these three lines (the second write ends in
`"\n\n"`). -/
def headerLines : List String :=
  ["Package Dependency and Layer Information", String.mk (List.replicate 80 '='), ""]

/-- `output_combined_data` as the list of lines written to the report file. -/
def output_combined_data (m : List (String × PkgInfo)) : List String :=
  headerLines ++ ((m.insertionSort pairKeyLe).map (packageBlock m)).flatten

/-! ## parse_combined_output (the interchange reader) -/

/-- Reader state: the accumulated dict, `current_package`, `in_dependencies`. -/
structure RState where
  packages : List (String × PkgInfo)
  current : Option String
  in_dependencies : Bool
deriving DecidableEq, Repr

/-- In-place update of one entry (`packages[cp]['layers'] = ...` /
`packages[cp]['dependencies'].append(...)`).  The key is always present when
this is reached (it is inserted by the `Package:` branch that set
`current_package`), so the no-op on a missing key is unreachable. -/
def dictModify (m : List (String × PkgInfo)) (k : String) (f : PkgInfo → PkgInfo) :
    List (String × PkgInfo) :=
  m.map (fun p => if p.1 = k then (p.1, f p.2) else p)

/-- `re.match(r'\s*-\s*([^\s(]+)', line)`: leading whitespace, one dash, more
whitespace, then a maximal non-empty run of characters that are neither
whitespace nor `'('`. -/
def depToken (line : String) : Option String :=
  match line.data.dropWhile Char.isWhitespace with
  | '-' :: r =>
    let tok := (r.dropWhile Char.isWhitespace).takeWhile
      (fun c => !c.isWhitespace && !decide (c = '('))
    if tok.isEmpty then none else some (String.mk tok)
  | _ => none

/-- One line of `parse_combined_output`'s loop, mirroring the `elif` chain. -/
def rstep (st : RState) (rawLine : String) : RState :=
  let line := pyrstrip rawLine
  if pyStartswith line "Package Dependency and Layer Information"
      ∨ pyStartswith line "=" then st
  else if pyStartswith line "Package: " then
    let cur := pystrip (pyRemove line "Package: ")
    { packages := dictSet st.packages cur ⟨[], []⟩, current := some cur,
      in_dependencies := false }
  else if pyStartswith (pystrip line) "Layers: " ∧ truthyOpt st.current then
    let layers_str := pyRemove (pystrip line) "Layers: "
    if layers_str = "(not found in package-layers.txt)" then st
    else
      match st.current with
      | some cp =>
        { st with packages := dictModify st.packages cp (fun info =>
            { info with layers := (splitCommaStr layers_str).map pystrip }) }
      | none => st
  else if pystrip line = "Dependencies:" ∧ truthyOpt st.current then
    { st with in_dependencies := true }
  else if st.in_dependencies ∧ pyStartswith (pystrip line) "- " then
    match depToken line, st.current with
    | some d, some cp =>
      { st with packages := dictModify st.packages cp (fun info =>
          { info with dependencies := info.dependencies ++ [d] }) }
    | _, _ => st
  else if pystrip line = "Dependencies: none" ∧ truthyOpt st.current then
    { st with in_dependencies := false }
  else st

/-- `parse_combined_output` over the lines of the report file. -/
def parse_combined_output (lines : List String) : List (String × PkgInfo) :=
  (lines.foldl rstep ⟨[], none, false⟩).packages

/-! ## The Neo4j store model and import_to_neo4j.py -/

inductive NodeLabel where
  | package
  | layer
deriving DecidableEq, Repr

/-- A node; its identity in the store is its whole property value. -/
structure Node where
  label : NodeLabel
  name : String
  ns : String
deriving DecidableEq, Repr

inductive RelKind where
  | depends_on
  | belongs_to
deriving DecidableEq, Repr

/-- A relationship with its `namespace` property. -/
structure StoreRel where
  kind : RelKind
  src : Node
  dst : Node
  ns : String
deriving DecidableEq, Repr

/-- The graph store: nodes, relationships and schema constraint/index names. -/
structure Store where
  nodes : List Node
  rels : List StoreRel
  constraints : List String
deriving DecidableEq, Repr

/-- `MERGE` of a node pattern: create only if absent. -/
def mergeNode (s : Store) (n : Node) : Store :=
  if n ∈ s.nodes then s else { s with nodes := s.nodes ++ [n] }

/-- `MERGE` of a relationship between two already-matched nodes. -/
def mergeRel (s : Store) (r : StoreRel) : Store :=
  if r ∈ s.rels then s else { s with rels := s.rels ++ [r] }

def pkgNode (name ns : String) : Node := ⟨.package, name, ns⟩

def layerNode (name ns : String) : Node := ⟨.layer, name, ns⟩

/-- `MATCH (p:Package ...) MATCH (l:Layer ...) MERGE (p)-[:BELONGS_TO ...]->(l)`:
if either match finds nothing the statement does nothing. -/
def mergeBelongs (s : Store) (package_name layer_name ns : String) : Store :=
  if pkgNode package_name ns ∈ s.nodes ∧ layerNode layer_name ns ∈ s.nodes then
    mergeRel s ⟨.belongs_to, pkgNode package_name ns, layerNode layer_name ns, ns⟩
  else s

/-- `MATCH (p1:Package ...) MATCH (p2:Package ...) MERGE (p1)-[:DEPENDS_ON ...]->(p2)`. -/
def mergeDepends (s : Store) (package_name dependency_name ns : String) : Store :=
  if pkgNode package_name ns ∈ s.nodes ∧ pkgNode dependency_name ns ∈ s.nodes then
    mergeRel s ⟨.depends_on, pkgNode package_name ns, pkgNode dependency_name ns, ns⟩
  else s

def insertIfAbsent (l : List String) (x : String) : List String :=
  if x ∈ l then l else l ++ [x]

/-- `all_layers = set(); for p in records: all_layers.update(p['layers'])`
(insertion-ordered model of the set; the store result does not depend on the
iteration order because node merging is commutative-idempotent). -/
def allLayers (packages_data : List (String × PkgInfo)) : List String :=
  packages_data.foldl (fun acc p => p.2.layers.foldl insertIfAbsent acc) []

/-- Phase 1 of `import_data`: merge a Layer node per distinct label. -/
def importLayers (s : Store) (packages_data : List (String × PkgInfo)) (ns : String) : Store :=
  (allLayers packages_data).foldl (fun s l => mergeNode s (layerNode l ns)) s

/-- One iteration of the phase-2 loop: merge the record's Package node, then a
BELONGS_TO relationship per layer of the record. -/
def importPackageStep (ns : String) (s : Store) (p : String × PkgInfo) : Store :=
  p.2.layers.foldl (fun s l => mergeBelongs s p.1 l ns) (mergeNode s (pkgNode p.1 ns))

/-- Phase 2 of `import_data`: per record, merge the Package node then the
BELONGS_TO relationships. -/
def importPackages (s : Store) (packages_data : List (String × PkgInfo)) (ns : String) : Store :=
  packages_data.foldl (importPackageStep ns) s

/-- One iteration of the phase-3 loop: the match-match-merge DEPENDS_ON
statement for each dependency of the record. -/
def importDependsStep (ns : String) (s : Store) (p : String × PkgInfo) : Store :=
  p.2.dependencies.foldl (fun s d => mergeDepends s p.1 d ns) s

/-- Phase 3 of `import_data`. -/
def importDependsOn (s : Store) (packages_data : List (String × PkgInfo)) (ns : String) : Store :=
  packages_data.foldl (importDependsStep ns) s

/-- `import_data(packages_data, namespace)` acting on the store. -/
def import_data (s : Store) (packages_data : List (String × PkgInfo)) (ns : String) : Store :=
  importDependsOn (importPackages (importLayers s packages_data ns) packages_data ns)
    packages_data ns

/-- `clear_database(namespace=None)`: `if namespace:` uses Python truthiness, so
`None` and `""` both take the clear-everything branch; otherwise a namespace-
scoped `DETACH DELETE` removes the matching nodes and every relationship
attached to a removed node. -/
def clear_database (s : Store) (ns : Option String) : Store :=
  if truthyOpt ns then
    match ns with
    | some n =>
      { s with nodes := s.nodes.filter (fun nd => !decide (nd.ns = n)),
               rels := s.rels.filter (fun r =>
                 !decide (r.src.ns = n) && !decide (r.dst.ns = n)) }
    | none => { s with nodes := [], rels := [] }
  else { s with nodes := [], rels := [] }

def countPackages (s : Store) : Nat :=
  (s.nodes.filter (fun n => decide (n.label = NodeLabel.package))).length

def countLayers (s : Store) : Nat :=
  (s.nodes.filter (fun n => decide (n.label = NodeLabel.layer))).length

def countDepends (s : Store) : Nat :=
  (s.rels.filter (fun r => decide (r.kind = RelKind.depends_on))).length

def countBelongs (s : Store) : Nat :=
  (s.rels.filter (fun r => decide (r.kind = RelKind.belongs_to))).length

/-! ## Effectful model of the importer run (connectivity and the missing file)

Each `session.run` is one numbered statement; the oracle `f` says whether the
`n`-th statement raises a connectivity failure (a failed statement leaves the
store unchanged).  Errors carry the store state at the moment they are raised,
since the external store does not roll back. -/

inductive RunErr where
  | conn_err
  | file_err
deriving DecidableEq, Repr

/-- Store state plus the number of statements attempted so far. -/
abbrev RunSt := Store × Nat

abbrev RunM (α : Type) := Except (RunErr × RunSt) α

/-- One `session.run` of a statement whose successful effect is `upd`. -/
def runStmt (f : Nat → Bool) (st : RunSt) (upd : Store → Store) : RunM RunSt :=
  if f st.2 then Except.error (RunErr.conn_err, (st.1, st.2 + 1))
  else Except.ok (upd st.1, st.2 + 1)

/-- A statement wrapped in its own `try: ... except: pass`. -/
def tryStmt (f : Nat → Bool) (st : RunSt) (upd : Store → Store) : RunSt :=
  if f st.2 then (st.1, st.2 + 1) else (upd st.1, st.2 + 1)

/-- `CREATE CONSTRAINT/INDEX ... IF NOT EXISTS` on the schema. -/
def addConstraint (name : String) (s : Store) : Store :=
  if name ∈ s.constraints then s else { s with constraints := s.constraints ++ [name] }

/-- `create_constraints`: two constraint statements each in their own bare
`try/except: pass`, then two index statements sharing one `try/except: pass`
(a failure of the first index statement skips the second).  Every exception,
including a connectivity failure, is swallowed. -/
def create_constraints (f : Nat → Bool) (st : RunSt) : RunSt :=
  let st1 := tryStmt f st (addConstraint "package_name_namespace")
  let st2 := tryStmt f st1 (addConstraint "layer_name_namespace")
  if f st2.2 then (st2.1, st2.2 + 1)
  else
    let st3 := (addConstraint "package_namespace" st2.1, st2.2 + 1)
    tryStmt f st3 (addConstraint "layer_namespace")

/-- `clear_database` as one statement. -/
def clear_databaseE (f : Nat → Bool) (st : RunSt) (ns : Option String) : RunM RunSt :=
  runStmt f st (fun s => clear_database s ns)

/-- `import_data` with each `session.run` as one fallible statement, in the
exact order of the Python loops. -/
def import_dataE (f : Nat → Bool) (st : RunSt)
    (packages_data : List (String × PkgInfo)) (ns : String) : RunM RunSt := do
  let st ← (allLayers packages_data).foldlM
    (fun st l => runStmt f st (fun s => mergeNode s (layerNode l ns))) st
  let st ← packages_data.foldlM (fun st p => do
      let st ← runStmt f st (fun s => mergeNode s (pkgNode p.1 ns))
      p.2.layers.foldlM (fun st l => runStmt f st (fun s => mergeBelongs s p.1 l ns)) st) st
  packages_data.foldlM (fun st p =>
      p.2.dependencies.foldlM (fun st d => runStmt f st (fun s => mergeDepends s p.1 d ns)) st) st

/-- `verify_import`: five read-only queries (counts and top-5). -/
def verify_importE (f : Nat → Bool) (st : RunSt) : RunM RunSt := do
  let st ← runStmt f st id
  let st ← runStmt f st id
  let st ← runStmt f st id
  let st ← runStmt f st id
  runStmt f st id

/-- `list_namespaces`: one read-only query. -/
def list_namespacesE (f : Nat → Bool) (st : RunSt) : RunM RunSt :=
  runStmt f st id

/-- The command-line arguments consumed inside `main`'s `try` block. -/
structure Args where
  namespace_arg : String
  clear : Bool
  clear_all : Bool
  list_namespaces : Bool
deriving DecidableEq, Repr

/-- The body of `main`'s `try` block.  `file` is the content of the input file,
`none` when the file is missing (in which case `open` raises when
`parse_combined_output` is called — after the optional clear and after
`create_constraints`). -/
def mainBody (f : Nat → Bool) (args : Args) (file : Option (List String))
    (st : RunSt) : RunM RunSt := do
  if args.list_namespaces then
    list_namespacesE f st
  else
    let st ← if args.clear_all then clear_databaseE f st none
             else if args.clear then clear_databaseE f st (some args.namespace_arg)
             else pure st
    let st := create_constraints f st
    match file with
    | none => throw (RunErr.file_err, st)
    | some lines =>
      let packages_data := parse_combined_output lines
      let st ← import_dataE f st packages_data args.namespace_arg
      verify_importE f st

/-- `main`: the `try/finally` — the driver is closed on every exit path, which
the second component records. -/
def main_run (f : Nat → Bool) (args : Args) (file : Option (List String)) (s : Store) :
    RunM RunSt × Bool :=
  (mainBody f args file (s, 0), true)

/-- The store state an execution left behind, error or not. -/
def finalStore : RunM RunSt → Store
  | Except.ok st => st.1
  | Except.error e => e.2.1

instance decEqRunM : DecidableEq (RunM RunSt) := fun a b =>
  match a, b with
  | Except.ok x, Except.ok y => decidable_of_iff (x = y) (by simp)
  | Except.error x, Except.error y => decidable_of_iff (x = y) (by simp)
  | Except.ok _, Except.error _ => isFalse (by simp)
  | Except.error _, Except.ok _ => isFalse (by simp)

/-- The error kind an execution ended with, if any. -/
def runError : RunM RunSt → Option RunErr
  | Except.ok _ => none
  | Except.error e => some e.1

/-- The store state after the optional `--clear-all` / `--clear` step of
`main`, before the input file is touched. -/
def mainClear (s : Store) (args : Args) : Store :=
  if args.clear_all then clear_database s none
  else if args.clear then clear_database s (some args.namespace_arg)
  else s

/-- The Package nodes of one namespace. -/
def nsNodes (s : Store) (ns : String) : List Node :=
  s.nodes.filter (fun n => decide (n.ns = ns))

/-- A well-behaved package name for the interchange format: nonempty, no
whitespace, no `'('`. -/
def goodNameB (s : String) : Bool :=
  !s.data.isEmpty && s.data.all (fun c => !c.isWhitespace && !decide (c = '('))

/-- A well-behaved layer label for the interchange format: nonempty, no
whitespace, none of `','`, `':'`, `'('`. -/
def goodLayerB (s : String) : Bool :=
  !s.data.isEmpty && s.data.all (fun c =>
    !c.isWhitespace && !decide (c = ',') && !decide (c = ':') && !decide (c = '('))

/-- Namespace discipline of a relationship: a DEPENDS_ON relationship connects
two Package nodes of exactly the namespace stored on the relationship. -/
def relNsOk (r : StoreRel) : Prop :=
  r.kind = RelKind.depends_on →
    r.src.ns = r.ns ∧ r.dst.ns = r.ns ∧
    r.src.label = NodeLabel.package ∧ r.dst.label = NodeLabel.package

/-- A run of consecutive fallible statements, one per successful effect. -/
def runSeq (f : Nat → Bool) (st : RunSt) (us : List (Store → Store)) : RunM RunSt :=
  us.foldlM (fun st u => runStmt f st u) st

/-- The number of statements the optional clear step of `main` issues. -/
def clearCount (args : Args) : Nat :=
  if args.clear_all then 1 else if args.clear then 1 else 0

/-- The successful effects of the statements `import_data` issues, in order:
one Layer merge per distinct layer, then per package its Package merge followed
by its BELONGS_TO merges, then all DEPENDS_ON merges. -/
def importUpds (packages_data : List (String × PkgInfo)) (ns : String) :
    List (Store → Store) :=
  (allLayers packages_data).map (fun l => fun s => mergeNode s (layerNode l ns))
    ++ packages_data.flatMap (fun p =>
        (fun s => mergeNode s (pkgNode p.1 ns)) ::
          p.2.layers.map (fun l => fun s => mergeBelongs s p.1 l ns))
    ++ packages_data.flatMap (fun p =>
        p.2.dependencies.map (fun d => fun s => mergeDepends s p.1 d ns))

/-- The total number of statements a non-`list_namespaces` run of `main` issues
on the given input file when nothing fails: the optional clear, the four
constraint/index statements, the `import_data` statements and the five
`verify_import` queries. -/
def totalStmts (args : Args) (lines : List String) : Nat :=
  clearCount args + 4
    + (importUpds (parse_combined_output lines) args.namespace_arg).length + 5

/-! ## Generic fold lemmas -/

theorem foldl_invariant {σ α : Type} (step : σ → α → σ) (P : σ → Prop)
    (l : List α) (s : σ) (hstep : ∀ s a, a ∈ l → P s → P (step s a)) (h : P s) :
    P (l.foldl step s) := by
  induction l generalizing s with
  | nil => exact h
  | cons a t ih =>
    exact ih _ (fun s b hb => hstep s b (List.mem_cons_of_mem _ hb))
      (hstep s a (List.mem_cons_self _ _) h)

theorem foldl_fixed {σ α : Type} (step : σ → α → σ) (s : σ) (l : List α)
    (h : ∀ a ∈ l, step s a = s) : l.foldl step s = s := by
  induction l with
  | nil => rfl
  | cons a t ih =>
    rw [List.foldl_cons, h a (List.mem_cons_self _ _)]
    exact ih (fun b hb => h b (List.mem_cons_of_mem _ hb))

@[simp] theorem addConstraint_nodes (c : String) (s : Store) :
    (addConstraint c s).nodes = s.nodes := by
  unfold addConstraint; split <;> rfl

@[simp] theorem addConstraint_rels (c : String) (s : Store) :
    (addConstraint c s).rels = s.rels := by
  unfold addConstraint; split <;> rfl

/-! ## C10 -/

/-- C10: calling `clear_database` with the empty string as the namespace takes
the clear-all branch (Python falsiness of `""`), deleting every node and every
relationship across all namespaces, exactly as when no namespace is given. -/
theorem c10_clear_empty_namespace_clears_all (s : Store) :
    clear_database s (some "") = clear_database s none ∧
    (clear_database s (some "")).nodes = [] ∧ (clear_database s (some "")).rels = [] :=
  ⟨rfl, rfl, rfl⟩

/-! ## C3 -/

/-- C3 (code bug): normalization is implemented as `replace('lib32-', '')`,
which also removes an *interior* occurrence, so a raw name that does not start
with the prefix is still altered, and the altered spelling is the key the edge
parser stores. -/
theorem c3_normalize_not_prefix_strip :
    normalizeName "foo-lib32-bar" = "foo-bar" ∧
    pyStartswith "foo-lib32-bar" "lib32-" = false ∧
    parse_dot_file ["\"foo-lib32-bar\" -> \"x\""] = [("foo-bar", ["x"])] := by decide

/-! ## C8 -/

/-- C8 (code bug): the single-pass `replace('lib32-', '')` is not idempotent —
removing the occurrence at index 2 of `"lilib32-b32-x"` splices together a
fresh `"lib32-"` occurrence which a second application removes. -/
theorem c8_normalize_not_idempotent :
    normalizeName "lilib32-b32-x" = "lib32-x" ∧
    normalizeName (normalizeName "lilib32-b32-x") = "x" ∧
    normalizeName (normalizeName "lilib32-b32-x") ≠ normalizeName "lilib32-b32-x" := by decide

/-! ## C2 -/

/-- C2 is refuted: with `--clear-all` and a missing input file, the run aborts
with the file error only *after* the store has been cleared — a store mutation
precedes the detection of the missing file. -/
theorem c2_counterexample :
    runError (main_run (fun _ => false) (Args.mk "ns" false true false) none
      (Store.mk [Node.mk NodeLabel.package "a" "old"] [] [])).1 = some RunErr.file_err ∧
    (finalStore (main_run (fun _ => false) (Args.mk "ns" false true false) none
      (Store.mk [Node.mk NodeLabel.package "a" "old"] [] [])).1).nodes = [] := by decide

/-- C2 (amended): when the combined-records file is missing, the run aborts
with the file error before any node or relationship upsert — the final store's
nodes and relationships are exactly those left by the requested clear — but the
optional clear and the constraint/index creation do execute first. -/
theorem c2_missing_file_aborts_before_upsert (args : Args) (s : Store)
    (h : args.list_namespaces = false) :
    runError (main_run (fun _ => false) args none s).1 = some RunErr.file_err ∧
    (finalStore (main_run (fun _ => false) args none s).1).nodes = (mainClear s args).nodes ∧
    (finalStore (main_run (fun _ => false) args none s).1).rels = (mainClear s args).rels := by
  obtain ⟨nsarg, clear, clear_all, list_ns⟩ := args
  simp only [Args.list_namespaces] at h
  subst h
  cases clear_all <;> cases clear <;>
    simp [main_run, mainBody, runError, finalStore, mainClear, clear_databaseE, runStmt,
      create_constraints, tryStmt, Bind.bind, Except.bind, pure, Except.pure, throw,
      throwThe, MonadExceptOf.throw]

/-- Witness for C2 (amended) at a concrete argument vector and store. -/
theorem c2_missing_file_witness :
    runError (main_run (fun _ => false) (Args.mk "n" true false false) none
      (Store.mk [] [] [])).1 = some RunErr.file_err ∧
    (finalStore (main_run (fun _ => false) (Args.mk "n" true false false) none
      (Store.mk [] [] [])).1).nodes =
      (mainClear (Store.mk [] [] []) (Args.mk "n" true false false)).nodes ∧
    (finalStore (main_run (fun _ => false) (Args.mk "n" true false false) none
      (Store.mk [] [] [])).1).rels =
      (mainClear (Store.mk [] [] []) (Args.mk "n" true false false)).rels :=
  c2_missing_file_aborts_before_upsert (Args.mk "n" true false false) (Store.mk [] [] []) rfl

/-! ## C9 -/

/-- C9 is refuted: the bare `except: pass` blocks in `create_constraints`
swallow connectivity failures too — a run whose first three statements (the two
constraint creations and the index `try` block) all raise connectivity errors
still completes successfully instead of propagating the failure. -/
theorem c9_counterexample :
    (fun n => decide (n < 3)) 0 = true ∧
    (main_run (fun n => decide (n < 3)) (Args.mk "ns" false false false) (some [])
      (Store.mk [] [] [])).1 = Except.ok (Store.mk [] [] [], 8) := by decide

theorem runSeq_nil (f : Nat → Bool) (st : RunSt) : runSeq f st [] = pure st := rfl

theorem runSeq_cons (f : Nat → Bool) (st : RunSt) (u : Store → Store)
    (us : List (Store → Store)) :
    runSeq f st (u :: us) = runStmt f st u >>= fun st' => runSeq f st' us := rfl

theorem runSeq_append (f : Nat → Bool) (st : RunSt) (us vs : List (Store → Store)) :
    runSeq f st (us ++ vs) = runSeq f st us >>= fun st' => runSeq f st' vs := by
  induction us generalizing st with
  | nil => simp [runSeq_nil, List.nil_append]
  | cons u t ih =>
    rw [List.cons_append, runSeq_cons, runSeq_cons, bind_assoc]
    simp only [ih]

theorem foldlM_map_runStmt {α : Type} (f : Nat → Bool) (g : α → Store → Store)
    (l : List α) : ∀ st : RunSt,
    l.foldlM (fun st a => runStmt f st (g a)) st = runSeq f st (l.map g) := by
  induction l with
  | nil => intro st; rfl
  | cons a t ih =>
    intro st
    rw [List.map_cons, runSeq_cons]
    show runStmt f st (g a) >>=
      (fun st' => t.foldlM (fun st a => runStmt f st (g a)) st') = _
    simp only [ih]

theorem foldlM_pkg_blocks (f : Nat → Bool) (ns : String)
    (pd : List (String × PkgInfo)) : ∀ st : RunSt,
    pd.foldlM (fun st p => do
      let st ← runStmt f st (fun s => mergeNode s (pkgNode p.1 ns))
      p.2.layers.foldlM (fun st l => runStmt f st (fun s => mergeBelongs s p.1 l ns)) st) st
    = runSeq f st (pd.flatMap (fun p =>
        (fun s => mergeNode s (pkgNode p.1 ns)) ::
          p.2.layers.map (fun l => fun s => mergeBelongs s p.1 l ns))) := by
  induction pd with
  | nil => intro st; rfl
  | cons p t ih =>
    intro st
    simp only [List.foldlM_cons, List.flatMap_cons, List.cons_append, runSeq_cons, bind_assoc]
    simp only [ih]
    simp only [foldlM_map_runStmt]
    simp only [runSeq_append, bind_assoc]

theorem foldlM_dep_blocks (f : Nat → Bool) (ns : String)
    (pd : List (String × PkgInfo)) : ∀ st : RunSt,
    pd.foldlM (fun st p =>
      p.2.dependencies.foldlM
        (fun st d => runStmt f st (fun s => mergeDepends s p.1 d ns)) st) st
    = runSeq f st (pd.flatMap (fun p =>
        p.2.dependencies.map (fun d => fun s => mergeDepends s p.1 d ns))) := by
  induction pd with
  | nil => intro st; rfl
  | cons p t ih =>
    intro st
    simp only [List.foldlM_cons, List.flatMap_cons, runSeq_append]
    simp only [ih]
    simp only [foldlM_map_runStmt]

theorem import_dataE_eq_runSeq (f : Nat → Bool) (st : RunSt)
    (packages_data : List (String × PkgInfo)) (ns : String) :
    import_dataE f st packages_data ns = runSeq f st (importUpds packages_data ns) := by
  unfold import_dataE importUpds
  rw [runSeq_append, runSeq_append, bind_assoc]
  simp only [foldlM_pkg_blocks, foldlM_dep_blocks]
  simp only [foldlM_map_runStmt]

theorem verify_importE_eq_runSeq (f : Nat → Bool) (st : RunSt) :
    verify_importE f st = runSeq f st [id, id, id, id, id] := by
  simp only [verify_importE, runSeq_cons, runSeq_nil, bind_pure]

theorem runSeq_err_of_first (f : Nat → Bool) (us : List (Store → Store)) :
    ∀ (c : Nat) (s : Store) (n : Nat), c ≤ n → n < c + us.length →
    (∀ k, c ≤ k → k < n → f k = false) → f n = true →
    ∃ s', runSeq f (s, c) us = Except.error (RunErr.conn_err, (s', n + 1)) := by
  induction us with
  | nil =>
    intro c s n h1 h2 _ _
    exact absurd h2 (by simp only [List.length_nil]; omega)
  | cons u t ih =>
    intro c s n h1 h2 hfalse hn
    rcases Nat.eq_or_lt_of_le h1 with hcn | hcn
    · subst hcn
      have hstep : runStmt f (s, c) u = Except.error (RunErr.conn_err, (s, c + 1)) := by
        simp [runStmt, hn]
      rw [runSeq_cons, hstep]
      exact ⟨s, rfl⟩
    · have hc : f c = false := hfalse c le_rfl hcn
      have hstep : runStmt f (s, c) u = Except.ok (u s, c + 1) := by
        simp [runStmt, hc]
      rw [runSeq_cons, hstep]
      obtain ⟨s', hs⟩ := ih (c + 1) (u s) n hcn
        (by simp only [List.length_cons] at h2; omega)
        (fun k hk1 hk2 => hfalse k (by omega) hk2) hn
      exact ⟨s', hs⟩

theorem create_constraints_of_false (f : Nat → Bool) (c : Nat) (s : Store)
    (h : ∀ k, c ≤ k → k < c + 4 → f k = false) :
    ∃ s', create_constraints f (s, c) = (s', c + 4) := by
  have h0 : f c = false := h c le_rfl (by omega)
  have h1 : f (c + 1) = false := h _ (by omega) (by omega)
  have h2 : f (c + 1 + 1) = false := h _ (by omega) (by omega)
  have h3 : f (c + 1 + 1 + 1) = false := h _ (by omega) (by omega)
  have h4 : c + 1 + 1 + 1 + 1 = c + 4 := by omega
  refine ⟨addConstraint "layer_namespace" (addConstraint "package_namespace"
    (addConstraint "layer_name_namespace" (addConstraint "package_name_namespace" s))), ?_⟩
  rw [← h4]
  simp [create_constraints, tryStmt, h0, h1, h2, h3]

theorem importVerify_err (f : Nat → Bool) (pd : List (String × PkgInfo)) (ns : String)
    (c : Nat) (s : Store) (n : Nat) (hc : c ≤ n)
    (hlt : n < c + ((importUpds pd ns).length + 5))
    (hfalse : ∀ k, c ≤ k → k < n → f k = false) (hn : f n = true) :
    ∃ s', (import_dataE f (s, c) pd ns >>= fun st => verify_importE f st)
      = Except.error (RunErr.conn_err, (s', n + 1)) := by
  obtain ⟨s', herr⟩ := runSeq_err_of_first f (importUpds pd ns ++ [id, id, id, id, id])
    c s n hc
    (by simp only [List.length_append, List.length_cons, List.length_nil]; omega)
    hfalse hn
  refine ⟨s', ?_⟩
  have hv : (fun st => verify_importE f st)
      = fun st : RunSt => runSeq f st [id, id, id, id, id] :=
    funext fun st => verify_importE_eq_runSeq f st
  rw [import_dataE_eq_runSeq, hv, ← runSeq_append]
  exact herr

/-- C9 (amended): the driver is closed on every exit path, and the first
connectivity failure of a run — statement number `n`, every earlier statement
succeeding — is fatal and propagates to the caller whenever it strikes an
importer operation other than `create_constraints`: the `list_namespaces`
query (statement 0 of a listing run), the optional clear (statement numbers
below `clearCount`), or any `import_data` / `verify_import` statement (numbers
from `clearCount + 4` up to `totalStmts`).  Only the four statements of
`create_constraints`, whose bare `except` blocks swallow the failure, are
excluded. -/
theorem c9_conn_failure_propagates_and_connection_released
    (f : Nat → Bool) (n : Nat) (args : Args) (lines : List String) (s : Store)
    (hfirst : ∀ k, k < n → f k = false) (hn : f n = true) :
    (main_run f args (some lines) s).2 = true ∧
    (args.list_namespaces = true → n = 0 →
      runError (main_run f args (some lines) s).1 = some RunErr.conn_err) ∧
    (args.list_namespaces = false →
      (n < clearCount args ∨ (clearCount args + 4 ≤ n ∧ n < totalStmts args lines)) →
      runError (main_run f args (some lines) s).1 = some RunErr.conn_err) := by
  obtain ⟨nsa, cl, ca, ln⟩ := args
  refine ⟨rfl, ?_, ?_⟩
  · intro hls hn0
    simp only [Args.list_namespaces] at hls
    subst hls; subst hn0
    simp [main_run, mainBody, list_namespacesE, runStmt, hn, runError]
  · intro hls hcase
    simp only [Args.list_namespaces] at hls
    subst hls
    cases ca with
    | true =>
      rcases hcase with hlt | ⟨hge, hlt2⟩
      · rw [show clearCount ⟨nsa, cl, true, false⟩ = 1 from rfl] at hlt
        have hn0 : n = 0 := by omega
        subst hn0
        have hclear : clear_databaseE f (s, 0) none
            = Except.error (RunErr.conn_err, (s, 1)) := by
          simp [clear_databaseE, runStmt, hn]
        have hbody : mainBody f ⟨nsa, cl, true, false⟩ (some lines) (s, 0)
            = Except.error (RunErr.conn_err, (s, 1)) := by
          rw [show mainBody f ⟨nsa, cl, true, false⟩ (some lines) (s, 0)
              = (clear_databaseE f (s, 0) none >>= fun st =>
                  import_dataE f (create_constraints f st) (parse_combined_output lines) nsa
                    >>= fun st => verify_importE f st) from rfl]
          rw [hclear]
          rfl
        show runError (mainBody f ⟨nsa, cl, true, false⟩ (some lines) (s, 0))
            = some RunErr.conn_err
        rw [hbody]; rfl
      · rw [show clearCount ⟨nsa, cl, true, false⟩ = 1 from rfl] at hge
        rw [show totalStmts ⟨nsa, cl, true, false⟩ lines
            = 1 + 4 + (importUpds (parse_combined_output lines) nsa).length + 5
            from rfl] at hlt2
        have h0 : f 0 = false := hfirst 0 (by omega)
        have hclear : clear_databaseE f (s, 0) none
            = Except.ok (clear_database s none, 1) := by
          simp [clear_databaseE, runStmt, h0]
        obtain ⟨s1, hcon⟩ := create_constraints_of_false f 1 (clear_database s none)
          (fun k _ hk2 => hfirst k (by omega))
        obtain ⟨s2, herr⟩ := importVerify_err f (parse_combined_output lines) nsa
          (1 + 4) s1 n (by omega) (by omega) (fun k _ hk2 => hfirst k hk2) hn
        have hbody : mainBody f ⟨nsa, cl, true, false⟩ (some lines) (s, 0)
            = Except.error (RunErr.conn_err, (s2, n + 1)) := by
          rw [show mainBody f ⟨nsa, cl, true, false⟩ (some lines) (s, 0)
              = (clear_databaseE f (s, 0) none >>= fun st =>
                  import_dataE f (create_constraints f st) (parse_combined_output lines) nsa
                    >>= fun st => verify_importE f st) from rfl]
          rw [hclear]
          show (import_dataE f (create_constraints f (clear_database s none, 1))
              (parse_combined_output lines) nsa >>= fun st => verify_importE f st) = _
          rw [hcon]
          exact herr
        show runError (mainBody f ⟨nsa, cl, true, false⟩ (some lines) (s, 0))
            = some RunErr.conn_err
        rw [hbody]; rfl
    | false =>
      cases cl with
      | true =>
        rcases hcase with hlt | ⟨hge, hlt2⟩
        · rw [show clearCount ⟨nsa, true, false, false⟩ = 1 from rfl] at hlt
          have hn0 : n = 0 := by omega
          subst hn0
          have hclear : clear_databaseE f (s, 0) (some nsa)
              = Except.error (RunErr.conn_err, (s, 1)) := by
            simp [clear_databaseE, runStmt, hn]
          have hbody : mainBody f ⟨nsa, true, false, false⟩ (some lines) (s, 0)
              = Except.error (RunErr.conn_err, (s, 1)) := by
            rw [show mainBody f ⟨nsa, true, false, false⟩ (some lines) (s, 0)
                = (clear_databaseE f (s, 0) (some nsa) >>= fun st =>
                    import_dataE f (create_constraints f st) (parse_combined_output lines) nsa
                      >>= fun st => verify_importE f st) from rfl]
            rw [hclear]
            rfl
          show runError (mainBody f ⟨nsa, true, false, false⟩ (some lines) (s, 0))
              = some RunErr.conn_err
          rw [hbody]; rfl
        · rw [show clearCount ⟨nsa, true, false, false⟩ = 1 from rfl] at hge
          rw [show totalStmts ⟨nsa, true, false, false⟩ lines
              = 1 + 4 + (importUpds (parse_combined_output lines) nsa).length + 5
              from rfl] at hlt2
          have h0 : f 0 = false := hfirst 0 (by omega)
          have hclear : clear_databaseE f (s, 0) (some nsa)
              = Except.ok (clear_database s (some nsa), 1) := by
            simp [clear_databaseE, runStmt, h0]
          obtain ⟨s1, hcon⟩ := create_constraints_of_false f 1 (clear_database s (some nsa))
            (fun k _ hk2 => hfirst k (by omega))
          obtain ⟨s2, herr⟩ := importVerify_err f (parse_combined_output lines) nsa
            (1 + 4) s1 n (by omega) (by omega) (fun k _ hk2 => hfirst k hk2) hn
          have hbody : mainBody f ⟨nsa, true, false, false⟩ (some lines) (s, 0)
              = Except.error (RunErr.conn_err, (s2, n + 1)) := by
            rw [show mainBody f ⟨nsa, true, false, false⟩ (some lines) (s, 0)
                = (clear_databaseE f (s, 0) (some nsa) >>= fun st =>
                    import_dataE f (create_constraints f st) (parse_combined_output lines) nsa
                      >>= fun st => verify_importE f st) from rfl]
            rw [hclear]
            show (import_dataE f (create_constraints f (clear_database s (some nsa), 1))
                (parse_combined_output lines) nsa >>= fun st => verify_importE f st) = _
            rw [hcon]
            exact herr
          show runError (mainBody f ⟨nsa, true, false, false⟩ (some lines) (s, 0))
              = some RunErr.conn_err
          rw [hbody]; rfl
      | false =>
        rcases hcase with hlt | ⟨hge, hlt2⟩
        · rw [show clearCount ⟨nsa, false, false, false⟩ = 0 from rfl] at hlt
          exact absurd hlt (by omega)
        · rw [show clearCount ⟨nsa, false, false, false⟩ = 0 from rfl] at hge
          rw [show totalStmts ⟨nsa, false, false, false⟩ lines
              = 0 + 4 + (importUpds (parse_combined_output lines) nsa).length + 5
              from rfl] at hlt2
          obtain ⟨s1, hcon⟩ := create_constraints_of_false f 0 s
            (fun k _ hk2 => hfirst k (by omega))
          obtain ⟨s2, herr⟩ := importVerify_err f (parse_combined_output lines) nsa
            (0 + 4) s1 n (by omega) (by omega) (fun k _ hk2 => hfirst k hk2) hn
          have hbody : mainBody f ⟨nsa, false, false, false⟩ (some lines) (s, 0)
              = Except.error (RunErr.conn_err, (s2, n + 1)) := by
            rw [show mainBody f ⟨nsa, false, false, false⟩ (some lines) (s, 0)
                = (import_dataE f (create_constraints f (s, 0)) (parse_combined_output lines)
                    nsa >>= fun st => verify_importE f st) from rfl]
            rw [hcon]
            exact herr
          show runError (mainBody f ⟨nsa, false, false, false⟩ (some lines) (s, 0))
              = some RunErr.conn_err
          rw [hbody]; rfl

/-- Witness for C9 (amended): the first failing statement is number 5 — the
second `import_data` statement of a run with no clear flag — and the run ends
in the connectivity error with the connection released. -/
theorem c9_conn_failure_witness :
    (main_run (fun k => decide (5 ≤ k)) (Args.mk "x" false false false)
      (some ["Package: a", "  Layers: core"]) (Store.mk [] [] [])).2 = true ∧
    runError (main_run (fun k => decide (5 ≤ k)) (Args.mk "x" false false false)
      (some ["Package: a", "  Layers: core"]) (Store.mk [] [] [])).1
      = some RunErr.conn_err := by
  have h := c9_conn_failure_propagates_and_connection_released (fun k => decide (5 ≤ k)) 5
    (Args.mk "x" false false false) ["Package: a", "  Layers: core"] (Store.mk [] [] [])
    (by decide) (by decide)
  exact ⟨h.1, h.2.2 rfl (by decide)⟩

/-! ## Store operation lemmas -/

theorem mergeNode_rels (s : Store) (n : Node) : (mergeNode s n).rels = s.rels := by
  unfold mergeNode; split <;> rfl

theorem mergeNode_constraints (s : Store) (n : Node) :
    (mergeNode s n).constraints = s.constraints := by
  unfold mergeNode; split <;> rfl

theorem mem_nodes_mergeNode {a : Node} {s : Store} (n : Node) (h : a ∈ s.nodes) :
    a ∈ (mergeNode s n).nodes := by
  unfold mergeNode; split
  · exact h
  · exact List.mem_append_left _ h

theorem self_mem_mergeNode (s : Store) (n : Node) : n ∈ (mergeNode s n).nodes := by
  unfold mergeNode; split
  · assumption
  · exact List.mem_append_right _ (List.mem_singleton_self n)

theorem mergeNode_eq_of_mem {s : Store} {n : Node} (h : n ∈ s.nodes) : mergeNode s n = s := by
  unfold mergeNode; rw [if_pos h]

theorem mem_nodes_mergeNode_elim {a : Node} {s : Store} {n : Node}
    (h : a ∈ (mergeNode s n).nodes) : a ∈ s.nodes ∨ a = n := by
  unfold mergeNode at h; split at h
  · exact Or.inl h
  · rcases List.mem_append.mp h with h' | h'
    · exact Or.inl h'
    · exact Or.inr (List.mem_singleton.mp h')

theorem mergeRel_nodes (s : Store) (r : StoreRel) : (mergeRel s r).nodes = s.nodes := by
  unfold mergeRel; split <;> rfl

theorem mem_rels_mergeRel {a : StoreRel} {s : Store} (r : StoreRel) (h : a ∈ s.rels) :
    a ∈ (mergeRel s r).rels := by
  unfold mergeRel; split
  · exact h
  · exact List.mem_append_left _ h

theorem self_mem_mergeRel (s : Store) (r : StoreRel) : r ∈ (mergeRel s r).rels := by
  unfold mergeRel; split
  · assumption
  · exact List.mem_append_right _ (List.mem_singleton_self r)

theorem mergeRel_eq_of_mem {s : Store} {r : StoreRel} (h : r ∈ s.rels) : mergeRel s r = s := by
  unfold mergeRel; rw [if_pos h]

theorem mem_rels_mergeRel_elim {a : StoreRel} {s : Store} {r : StoreRel}
    (h : a ∈ (mergeRel s r).rels) : a ∈ s.rels ∨ a = r := by
  unfold mergeRel at h; split at h
  · exact Or.inl h
  · rcases List.mem_append.mp h with h' | h'
    · exact Or.inl h'
    · exact Or.inr (List.mem_singleton.mp h')

theorem mergeBelongs_nodes (s : Store) (a b ns : String) :
    (mergeBelongs s a b ns).nodes = s.nodes := by
  unfold mergeBelongs; split
  · exact mergeRel_nodes _ _
  · rfl

theorem mem_rels_mergeBelongs {r : StoreRel} {s : Store} (a b ns : String) (h : r ∈ s.rels) :
    r ∈ (mergeBelongs s a b ns).rels := by
  unfold mergeBelongs; split
  · exact mem_rels_mergeRel _ h
  · exact h

theorem mem_rels_mergeBelongs_elim {r : StoreRel} {s : Store} {a b ns : String}
    (h : r ∈ (mergeBelongs s a b ns).rels) :
    r ∈ s.rels ∨ r = ⟨RelKind.belongs_to, pkgNode a ns, layerNode b ns, ns⟩ := by
  unfold mergeBelongs at h; split at h
  · exact mem_rels_mergeRel_elim h
  · exact Or.inl h

theorem mergeBelongs_eq_of_mem {s : Store} {a b ns : String}
    (h : (⟨RelKind.belongs_to, pkgNode a ns, layerNode b ns, ns⟩ : StoreRel) ∈ s.rels) :
    mergeBelongs s a b ns = s := by
  unfold mergeBelongs; split
  · exact mergeRel_eq_of_mem h
  · rfl

theorem mergeDepends_nodes (s : Store) (a d ns : String) :
    (mergeDepends s a d ns).nodes = s.nodes := by
  unfold mergeDepends; split
  · exact mergeRel_nodes _ _
  · rfl

theorem mem_rels_mergeDepends {r : StoreRel} {s : Store} (a d ns : String) (h : r ∈ s.rels) :
    r ∈ (mergeDepends s a d ns).rels := by
  unfold mergeDepends; split
  · exact mem_rels_mergeRel _ h
  · exact h

theorem mem_rels_mergeDepends_elim {r : StoreRel} {s : Store} {a d ns : String}
    (h : r ∈ (mergeDepends s a d ns).rels) :
    r ∈ s.rels ∨ (pkgNode a ns ∈ s.nodes ∧ pkgNode d ns ∈ s.nodes ∧
      r = ⟨RelKind.depends_on, pkgNode a ns, pkgNode d ns, ns⟩) := by
  unfold mergeDepends at h; split at h
  · rcases mem_rels_mergeRel_elim h with h' | h'
    · exact Or.inl h'
    · rename_i hc
      exact Or.inr ⟨hc.1, hc.2, h'⟩
  · exact Or.inl h

theorem mergeDepends_eq_of_mem {s : Store} {a d ns : String}
    (h : pkgNode a ns ∈ s.nodes → pkgNode d ns ∈ s.nodes →
      (⟨RelKind.depends_on, pkgNode a ns, pkgNode d ns, ns⟩ : StoreRel) ∈ s.rels) :
    mergeDepends s a d ns = s := by
  unfold mergeDepends; split
  · rename_i hc
    exact mergeRel_eq_of_mem (h hc.1 hc.2)
  · rfl

theorem foldl_nodes_const {α : Type} (step : Store → α → Store)
    (h : ∀ s a, (step s a).nodes = s.nodes) (l : List α) (s : Store) :
    (l.foldl step s).nodes = s.nodes := by
  induction l generalizing s with
  | nil => rfl
  | cons a t ih => rw [List.foldl_cons, ih, h]

theorem foldl_rels_const {α : Type} (step : Store → α → Store)
    (h : ∀ s a, (step s a).rels = s.rels) (l : List α) (s : Store) :
    (l.foldl step s).rels = s.rels := by
  induction l generalizing s with
  | nil => rfl
  | cons a t ih => rw [List.foldl_cons, ih, h]

/-! ## C5 -/

/-- C5: every name appearing as a dependency target in the mapping produced by
the edge parser is a key of `combine_data`'s result, and if it is a key of
neither input mapping then its record is `⟨[], []⟩`. -/
theorem c5_closure_completeness (E L : List String) (A B : String) (ds : List String)
    (hA : (A, ds) ∈ parse_dot_file E) (hB : B ∈ ds) :
    (∃ info : PkgInfo, (B, info) ∈ combine_data (parse_dot_file E) (parse_layers_file L)) ∧
    (dictGet (parse_dot_file E) B = none → dictGet (parse_layers_file L) B = none →
      (B, PkgInfo.mk [] []) ∈ combine_data (parse_dot_file E) (parse_layers_file L)) := by
  have hflat : B ∈ ((parse_dot_file E).map (·.2)).flatten :=
    List.mem_flatten.mpr ⟨ds, List.mem_map_of_mem _ hA, hB⟩
  have hall : B ∈ (dictKeys (parse_dot_file E) ++ dictKeys (parse_layers_file L)
      ++ ((parse_dot_file E).map (·.2)).flatten).dedup := by
    rw [List.mem_dedup]
    exact List.mem_append_right _ hflat
  have hsort : B ∈ ((dictKeys (parse_dot_file E) ++ dictKeys (parse_layers_file L)
      ++ ((parse_dot_file E).map (·.2)).flatten).dedup).insertionSort strLeR :=
    (List.perm_insertionSort strLeR _).mem_iff.mpr hall
  constructor
  · exact ⟨_, List.mem_map_of_mem _ hsort⟩
  · intro hd hl
    have hmem := List.mem_map_of_mem (fun package =>
      (package,
        PkgInfo.mk (((dictGet (parse_dot_file E) package).getD []).insertionSort strLeR)
          ((dictGet (parse_layers_file L) package).getD []))) hsort
    simp only [hd, hl, Option.getD_none, List.insertionSort] at hmem
    exact hmem

/-- Witness for C5 on the spec's worked example: `baz` occurs only as a
dependency target and gets the empty record. -/
theorem c5_closure_witness :
    ("baz", PkgInfo.mk [] []) ∈
      combine_data (parse_dot_file ["\"lib32-foo\" -> \"bar\";", "\"bar\" -> \"baz\";"])
        (parse_layers_file ["foo:", "  core", "bar:", "  extra"]) :=
  (c5_closure_completeness _ _ "bar" "baz" ["baz"] (by decide) (by decide)).2
    (by decide) (by decide)

/-! ## C6 -/

theorem importLayers_rels (s : Store) (pkgs : List (String × PkgInfo)) (ns : String) :
    (importLayers s pkgs ns).rels = s.rels :=
  foldl_rels_const _ (fun s l => mergeNode_rels s (layerNode l ns)) _ s

theorem importPackageStep_relNsOk {s : Store} {ns : String} (p : String × PkgInfo)
    (h : ∀ r ∈ s.rels, relNsOk r) : ∀ r ∈ (importPackageStep ns s p).rels, relNsOk r := by
  unfold importPackageStep
  refine foldl_invariant _ (fun s : Store => ∀ r ∈ s.rels, relNsOk r) _ _ ?_ ?_
  · intro s l _ hP r hr
    rcases mem_rels_mergeBelongs_elim hr with h' | h'
    · exact hP r h'
    · subst h'
      intro hk
      cases hk
  · intro r hr
    rw [mergeNode_rels] at hr
    exact h r hr

theorem importDependsStep_relNsOk {s : Store} {ns : String} (p : String × PkgInfo)
    (h : ∀ r ∈ s.rels, relNsOk r) : ∀ r ∈ (importDependsStep ns s p).rels, relNsOk r := by
  unfold importDependsStep
  refine foldl_invariant _ (fun s : Store => ∀ r ∈ s.rels, relNsOk r) _ _ ?_ h
  intro s d _ hP r hr
  rcases mem_rels_mergeDepends_elim hr with h' | h'
  · exact hP r h'
  · obtain ⟨-, -, rfl⟩ := h'
    exact fun _ => ⟨rfl, rfl, rfl, rfl⟩

/-- The namespace discipline of relationships is preserved by a whole import. -/
theorem import_data_relNsOk (s : Store) (pkgs : List (String × PkgInfo)) (ns : String)
    (h : ∀ r ∈ s.rels, relNsOk r) : ∀ r ∈ (import_data s pkgs ns).rels, relNsOk r := by
  unfold import_data importPackages importDependsOn
  refine foldl_invariant _ (fun s : Store => ∀ r ∈ s.rels, relNsOk r) _ _
    (fun s p _ hP => importDependsStep_relNsOk p hP) ?_
  refine foldl_invariant _ (fun s : Store => ∀ r ∈ s.rels, relNsOk r) _ _
    (fun s p _ hP => importPackageStep_relNsOk p hP) ?_
  intro r hr
  rw [importLayers_rels] at hr
  exact h r hr

/-- C6: importing the same records into two distinct namespaces yields disjoint
node sets (a node carries exactly one namespace), and every DEPENDS_ON
relationship in the resulting store connects two Package nodes of exactly the
relationship's namespace — no cross-namespace DEPENDS_ON edge exists. -/
theorem c6_namespace_isolation (s : Store) (pkgs : List (String × PkgInfo)) (ns1 ns2 : String)
    (hne : ns1 ≠ ns2) (hinv : ∀ r ∈ s.rels, relNsOk r) :
    (∀ n ∈ nsNodes (import_data (import_data s pkgs ns1) pkgs ns2) ns1,
      n ∉ nsNodes (import_data (import_data s pkgs ns1) pkgs ns2) ns2) ∧
    (∀ r ∈ (import_data (import_data s pkgs ns1) pkgs ns2).rels, relNsOk r) := by
  constructor
  · intro n h1 h2
    have e1 : n.ns = ns1 := of_decide_eq_true (List.mem_filter.mp h1).2
    have e2 : n.ns = ns2 := of_decide_eq_true (List.mem_filter.mp h2).2
    exact hne (e1 ▸ e2)
  · exact import_data_relNsOk _ pkgs ns2 (import_data_relNsOk s pkgs ns1 hinv)

/-- Witness for C6: colliding package names in namespaces `"x"` and `"y"`. -/
theorem c6_namespace_isolation_witness :
    Node.mk NodeLabel.package "a" "x" ∉
      nsNodes (import_data (import_data (Store.mk [] [] [])
        [("a", PkgInfo.mk ["b"] ["l"]), ("b", PkgInfo.mk [] [])] "x")
        [("a", PkgInfo.mk ["b"] ["l"]), ("b", PkgInfo.mk [] [])] "y") "y" :=
  (c6_namespace_isolation (Store.mk [] [] [])
      [("a", PkgInfo.mk ["b"] ["l"]), ("b", PkgInfo.mk [] [])] "x" "y"
      (by decide) (by intro r hr; cases hr)).1
    (Node.mk NodeLabel.package "a" "x") (by decide)

/-! ## C7 -/

/-- The invariant used for C7: the missing package's node is absent and no new
DEPENDS_ON relationship onto it has appeared (relative to the base store `s`). -/
def danglingInv (s : Store) (dep ns : String) (t : Store) : Prop :=
  pkgNode dep ns ∉ t.nodes ∧
    ∀ r ∈ t.rels, r.kind = RelKind.depends_on ∧ r.dst = pkgNode dep ns → r ∈ s.rels

theorem danglingInv_mergeDepends {s t : Store} {dep ns : String} (a d : String)
    (h : danglingInv s dep ns t) : danglingInv s dep ns (mergeDepends t a d ns) := by
  constructor
  · rw [mergeDepends_nodes]
    exact h.1
  · intro r hr hrd
    rcases mem_rels_mergeDepends_elim hr with h' | h'
    · exact h.2 r h' hrd
    · exfalso
      obtain ⟨hsrc, hdst, rfl⟩ := h'
      have : pkgNode d ns = pkgNode dep ns := hrd.2
      rw [this] at hdst
      exact h.1 hdst

theorem danglingInv_mergeBelongs {s t : Store} {dep ns : String} (a b : String)
    (h : danglingInv s dep ns t) : danglingInv s dep ns (mergeBelongs t a b ns) := by
  constructor
  · rw [mergeBelongs_nodes]
    exact h.1
  · intro r hr hrd
    rcases mem_rels_mergeBelongs_elim hr with h' | h'
    · exact h.2 r h' hrd
    · exfalso
      rw [h'] at hrd
      cases hrd.1

theorem danglingInv_mergeNode {s t : Store} {dep ns : String} (n : Node)
    (hn : n ≠ pkgNode dep ns) (h : danglingInv s dep ns t) :
    danglingInv s dep ns (mergeNode t n) := by
  constructor
  · intro hmem
    rcases mem_nodes_mergeNode_elim hmem with h' | h'
    · exact h.1 h'
    · exact hn h'.symm
  · intro r hr hrd
    rw [mergeNode_rels] at hr
    exact h.2 r hr hrd

/-- C7: a dependency naming a package that is neither a key of the imported
records nor an existing Package node of the target namespace produces no
DEPENDS_ON relationship (and, the import being a total function, no error):
every relationship of the resulting store whose kind is DEPENDS_ON and whose
target is the missing package was already in the store before the import. -/
theorem c7_dangling_dependency_tolerated (s : Store) (pkgs : List (String × PkgInfo))
    (ns dep : String) (_hrec : ∃ pr ∈ pkgs, dep ∈ pr.2.dependencies)
    (hkey : ∀ pr ∈ pkgs, pr.1 ≠ dep) (hnode : pkgNode dep ns ∉ s.nodes) :
    ∀ r ∈ (import_data s pkgs ns).rels,
      r.kind = RelKind.depends_on ∧ r.dst = pkgNode dep ns → r ∈ s.rels := by
  unfold import_data importPackages importDependsOn
  have P1 : danglingInv s dep ns (importLayers s pkgs ns) := by
    unfold importLayers
    refine foldl_invariant _ (danglingInv s dep ns) _ _ ?_ ⟨hnode, fun r hr _ => hr⟩
    intro t l _ hP
    refine danglingInv_mergeNode _ ?_ hP
    intro h
    cases h
  have P2 : danglingInv s dep ns
      (List.foldl (importPackageStep ns) (importLayers s pkgs ns) pkgs) := by
    refine foldl_invariant _ (danglingInv s dep ns) _ _ ?_ P1
    intro t p hp hP
    unfold importPackageStep
    refine foldl_invariant _ (danglingInv s dep ns) _ _
      (fun t l _ hP' => danglingInv_mergeBelongs _ _ hP') ?_
    refine danglingInv_mergeNode _ ?_ hP
    intro h
    exact hkey p hp (show p.1 = dep from congrArg Node.name h)
  have P3 : danglingInv s dep ns
      (List.foldl (importDependsStep ns)
        (List.foldl (importPackageStep ns) (importLayers s pkgs ns) pkgs) pkgs) := by
    refine foldl_invariant _ (danglingInv s dep ns) _ _ ?_ P2
    intro t p _ hP
    unfold importDependsStep
    exact foldl_invariant _ (danglingInv s dep ns) _ _
      (fun t d _ hP' => danglingInv_mergeDepends _ _ hP') hP
  exact P3.2

/-- Witness for C7: importing `a -> ghost` into an empty store creates no
DEPENDS_ON relationship onto the never-imported `ghost`. -/
theorem c7_dangling_dependency_witness :
    (StoreRel.mk RelKind.depends_on (pkgNode "a" "n") (pkgNode "ghost" "n") "n") ∉
      (import_data (Store.mk [] [] []) [("a", PkgInfo.mk ["ghost"] [])] "n").rels :=
  fun h =>
    absurd
      (c7_dangling_dependency_tolerated (Store.mk [] [] []) [("a", PkgInfo.mk ["ghost"] [])]
        "n" "ghost" ⟨("a", PkgInfo.mk ["ghost"] []), by decide⟩
        (by intro pr hpr; fin_cases hpr; decide) (by decide) _ h ⟨rfl, rfl⟩)
      (List.not_mem_nil _)

/-! ## C4: import idempotence -/

theorem mem_insertIfAbsent_self (l : List String) (x : String) : x ∈ insertIfAbsent l x := by
  unfold insertIfAbsent; split
  · assumption
  · exact List.mem_append_right _ (List.mem_singleton_self x)

theorem mem_insertIfAbsent {l : List String} {y : String} (x : String) (h : y ∈ l) :
    y ∈ insertIfAbsent l x := by
  unfold insertIfAbsent; split
  · exact h
  · exact List.mem_append_left _ h

theorem mem_foldl_insertIfAbsent_acc {acc : List String} {y : String} (l : List String)
    (h : y ∈ acc) : y ∈ l.foldl insertIfAbsent acc :=
  foldl_invariant _ (fun acc => y ∈ acc) _ _ (fun _acc x _ h' => mem_insertIfAbsent x h') h

theorem mem_foldl_insertIfAbsent_of_mem {l : List String} {y : String} (acc : List String)
    (h : y ∈ l) : y ∈ l.foldl insertIfAbsent acc := by
  induction l generalizing acc with
  | nil => cases h
  | cons a t ih =>
    rcases List.mem_cons.mp h with rfl | h'
    · exact mem_foldl_insertIfAbsent_acc t (mem_insertIfAbsent_self acc y)
    · exact ih _ h'

theorem mem_allLayers {pkgs : List (String × PkgInfo)} {p : String × PkgInfo} {l : String}
    (hp : p ∈ pkgs) (hl : l ∈ p.2.layers) : l ∈ allLayers pkgs := by
  unfold allLayers
  have aux : ∀ (rest : List (String × PkgInfo)) (acc : List String), p ∈ rest →
      l ∈ rest.foldl (fun acc q => q.2.layers.foldl insertIfAbsent acc) acc := by
    intro rest
    induction rest with
    | nil => intro acc h; cases h
    | cons a t ih =>
      intro acc h
      rcases List.mem_cons.mp h with rfl | h'
      · rw [List.foldl_cons]
        refine foldl_invariant _ (fun acc => l ∈ acc) _ _
          (fun acc q _ h'' => mem_foldl_insertIfAbsent_acc _ h'') ?_
        exact mem_foldl_insertIfAbsent_of_mem acc hl
      · rw [List.foldl_cons]
        exact ih _ h'
  exact aux pkgs [] hp

theorem mem_nodes_importLayers {s : Store} {a : Node} (pkgs : List (String × PkgInfo))
    (ns : String) (h : a ∈ s.nodes) : a ∈ (importLayers s pkgs ns).nodes :=
  foldl_invariant _ (fun t : Store => a ∈ t.nodes) _ _
    (fun _t _l _ h' => mem_nodes_mergeNode _ h') h

theorem foldl_mergeLayerNode_mem (L : List String) (l ns : String) (s : Store) (hl : l ∈ L) :
    layerNode l ns ∈ (L.foldl (fun s m => mergeNode s (layerNode m ns)) s).nodes := by
  induction L generalizing s with
  | nil => cases hl
  | cons a t ih =>
    rw [List.foldl_cons]
    rcases List.mem_cons.mp hl with rfl | h'
    · refine foldl_invariant _ (fun u : Store => layerNode l ns ∈ u.nodes) _ _
        (fun u m _ h'' => mem_nodes_mergeNode _ h'') ?_
      exact self_mem_mergeNode s (layerNode l ns)
    · exact ih _ h'

theorem layer_mem_importLayers {pkgs : List (String × PkgInfo)} {l : String}
    (s : Store) (ns : String) (hl : l ∈ allLayers pkgs) :
    layerNode l ns ∈ (importLayers s pkgs ns).nodes :=
  foldl_mergeLayerNode_mem (allLayers pkgs) l ns s hl

theorem importPackageStep_nodes (ns : String) (t : Store) (p : String × PkgInfo) :
    (importPackageStep ns t p).nodes = (mergeNode t (pkgNode p.1 ns)).nodes := by
  unfold importPackageStep
  exact foldl_nodes_const _ (fun u l => mergeBelongs_nodes u p.1 l ns) _ _

theorem importPackageStep_nodes_mono {t : Store} {a : Node} (ns : String)
    (p : String × PkgInfo) (h : a ∈ t.nodes) : a ∈ (importPackageStep ns t p).nodes := by
  rw [importPackageStep_nodes]
  exact mem_nodes_mergeNode _ h

theorem importPackageStep_rels_mono {t : Store} {r : StoreRel} (ns : String)
    (p : String × PkgInfo) (h : r ∈ t.rels) : r ∈ (importPackageStep ns t p).rels := by
  unfold importPackageStep
  refine foldl_invariant _ (fun u : Store => r ∈ u.rels) _ _
    (fun u l _ h' => mem_rels_mergeBelongs _ _ _ h') ?_
  show r ∈ (mergeNode t (pkgNode p.1 ns)).rels
  rw [mergeNode_rels]
  exact h

theorem mem_nodes_importPackages {s : Store} {a : Node} (pkgs : List (String × PkgInfo))
    (ns : String) (h : a ∈ s.nodes) : a ∈ (importPackages s pkgs ns).nodes :=
  foldl_invariant _ (fun t : Store => a ∈ t.nodes) _ _
    (fun _t p _ h' => importPackageStep_nodes_mono ns p h') h

theorem mem_rels_importPackages {s : Store} {r : StoreRel} (pkgs : List (String × PkgInfo))
    (ns : String) (h : r ∈ s.rels) : r ∈ (importPackages s pkgs ns).rels :=
  foldl_invariant _ (fun t : Store => r ∈ t.rels) _ _
    (fun _t p _ h' => importPackageStep_rels_mono ns p h') h

theorem pkg_mem_importPackages {pkgs : List (String × PkgInfo)} {p : String × PkgInfo}
    (s : Store) (ns : String) (hp : p ∈ pkgs) :
    pkgNode p.1 ns ∈ (importPackages s pkgs ns).nodes := by
  unfold importPackages
  induction pkgs generalizing s with
  | nil => cases hp
  | cons a t ih =>
    rw [List.foldl_cons]
    rcases List.mem_cons.mp hp with rfl | h'
    · refine foldl_invariant _ (fun u : Store => pkgNode p.1 ns ∈ u.nodes) _ _
        (fun u q _ h'' => importPackageStep_nodes_mono ns q h'') ?_
      show pkgNode p.1 ns ∈ (importPackageStep ns s p).nodes
      rw [importPackageStep_nodes]
      exact self_mem_mergeNode s (pkgNode p.1 ns)
    · exact ih _ h'

theorem mergeBelongs_creates {t : Store} {x b ns : String}
    (h1 : pkgNode x ns ∈ t.nodes) (h2 : layerNode b ns ∈ t.nodes) :
    (StoreRel.mk RelKind.belongs_to (pkgNode x ns) (layerNode b ns) ns) ∈
      (mergeBelongs t x b ns).rels := by
  unfold mergeBelongs
  rw [if_pos ⟨h1, h2⟩]
  exact self_mem_mergeRel _ _

theorem mergeDepends_creates {t : Store} {x d ns : String}
    (h1 : pkgNode x ns ∈ t.nodes) (h2 : pkgNode d ns ∈ t.nodes) :
    (StoreRel.mk RelKind.depends_on (pkgNode x ns) (pkgNode d ns) ns) ∈
      (mergeDepends t x d ns).rels := by
  unfold mergeDepends
  rw [if_pos ⟨h1, h2⟩]
  exact self_mem_mergeRel _ _

theorem belongs_mem_fold {x ns : String} (layers : List String) (l : String) (t : Store)
    (hl : l ∈ layers) (h1 : pkgNode x ns ∈ t.nodes) (h2 : layerNode l ns ∈ t.nodes) :
    (StoreRel.mk RelKind.belongs_to (pkgNode x ns) (layerNode l ns) ns) ∈
      (layers.foldl (fun u m => mergeBelongs u x m ns) t).rels := by
  induction layers generalizing t with
  | nil => cases hl
  | cons a rest ih =>
    rw [List.foldl_cons]
    rcases List.mem_cons.mp hl with rfl | h'
    · refine foldl_invariant _
        (fun u : Store =>
          (StoreRel.mk RelKind.belongs_to (pkgNode x ns) (layerNode l ns) ns) ∈ u.rels) _ _
        (fun u m _ h'' => mem_rels_mergeBelongs _ _ _ h'') ?_
      exact mergeBelongs_creates h1 h2
    · refine ih _ h' ?_ ?_
      · rw [mergeBelongs_nodes]; exact h1
      · rw [mergeBelongs_nodes]; exact h2

theorem belongs_mem_importPackages {pkgs : List (String × PkgInfo)} {p : String × PkgInfo}
    {l : String} (s : Store) (ns : String) (hp : p ∈ pkgs) (hl : l ∈ p.2.layers)
    (hlay : ∀ q ∈ pkgs, ∀ m ∈ q.2.layers, layerNode m ns ∈ s.nodes) :
    (StoreRel.mk RelKind.belongs_to (pkgNode p.1 ns) (layerNode l ns) ns) ∈
      (importPackages s pkgs ns).rels := by
  unfold importPackages
  induction pkgs generalizing s with
  | nil => cases hp
  | cons a rest ih =>
    rw [List.foldl_cons]
    rcases List.mem_cons.mp hp with rfl | h'
    · refine foldl_invariant _
        (fun u : Store =>
          (StoreRel.mk RelKind.belongs_to (pkgNode p.1 ns) (layerNode l ns) ns) ∈ u.rels) _ _
        (fun u q _ h'' => importPackageStep_rels_mono ns q h'') ?_
      show _ ∈ (importPackageStep ns s p).rels
      unfold importPackageStep
      refine belongs_mem_fold _ _ _ hl (self_mem_mergeNode _ _) ?_
      exact mem_nodes_mergeNode _ (hlay p (List.mem_cons_self _ _) l hl)
    · refine ih _ h' ?_
      intro q hq m hm
      exact importPackageStep_nodes_mono ns a
        (hlay q (List.mem_cons_of_mem _ hq) m hm)

theorem importDependsStep_nodes (ns : String) (t : Store) (p : String × PkgInfo) :
    (importDependsStep ns t p).nodes = t.nodes := by
  unfold importDependsStep
  exact foldl_nodes_const _ (fun u d => mergeDepends_nodes u p.1 d ns) _ _

theorem importDependsOn_nodes (s : Store) (pkgs : List (String × PkgInfo)) (ns : String) :
    (importDependsOn s pkgs ns).nodes = s.nodes :=
  foldl_nodes_const _ (fun t p => importDependsStep_nodes ns t p) _ _

theorem importDependsStep_rels_mono {t : Store} {r : StoreRel} (ns : String)
    (p : String × PkgInfo) (h : r ∈ t.rels) : r ∈ (importDependsStep ns t p).rels := by
  unfold importDependsStep
  exact foldl_invariant _ (fun u : Store => r ∈ u.rels) _ _
    (fun u d _ h' => mem_rels_mergeDepends _ _ _ h') h

theorem mem_rels_importDependsOn {s : Store} {r : StoreRel} (pkgs : List (String × PkgInfo))
    (ns : String) (h : r ∈ s.rels) : r ∈ (importDependsOn s pkgs ns).rels :=
  foldl_invariant _ (fun t : Store => r ∈ t.rels) _ _
    (fun _t p _ h' => importDependsStep_rels_mono ns p h') h

theorem depends_mem_fold {x ns : String} (deps : List String) (d : String) (t : Store)
    (hd : d ∈ deps) (h1 : pkgNode x ns ∈ t.nodes) (h2 : pkgNode d ns ∈ t.nodes) :
    (StoreRel.mk RelKind.depends_on (pkgNode x ns) (pkgNode d ns) ns) ∈
      (deps.foldl (fun u e => mergeDepends u x e ns) t).rels := by
  induction deps generalizing t with
  | nil => cases hd
  | cons a rest ih =>
    rw [List.foldl_cons]
    rcases List.mem_cons.mp hd with rfl | h'
    · refine foldl_invariant _
        (fun u : Store =>
          (StoreRel.mk RelKind.depends_on (pkgNode x ns) (pkgNode d ns) ns) ∈ u.rels) _ _
        (fun u e _ h'' => mem_rels_mergeDepends _ _ _ h'') ?_
      exact mergeDepends_creates h1 h2
    · refine ih _ h' ?_ ?_
      · rw [mergeDepends_nodes]; exact h1
      · rw [mergeDepends_nodes]; exact h2

theorem depends_mem_importDependsOn {pkgs : List (String × PkgInfo)} {p : String × PkgInfo}
    {d : String} (s : Store) (ns : String) (hp : p ∈ pkgs) (hd : d ∈ p.2.dependencies)
    (h1 : pkgNode p.1 ns ∈ s.nodes) (h2 : pkgNode d ns ∈ s.nodes) :
    (StoreRel.mk RelKind.depends_on (pkgNode p.1 ns) (pkgNode d ns) ns) ∈
      (importDependsOn s pkgs ns).rels := by
  unfold importDependsOn
  induction pkgs generalizing s with
  | nil => cases hp
  | cons a rest ih =>
    rw [List.foldl_cons]
    rcases List.mem_cons.mp hp with rfl | h'
    · refine foldl_invariant _
        (fun u : Store =>
          (StoreRel.mk RelKind.depends_on (pkgNode p.1 ns) (pkgNode d ns) ns) ∈ u.rels) _ _
        (fun u q _ h'' => importDependsStep_rels_mono ns q h'') ?_
      show _ ∈ (importDependsStep ns s p).rels
      unfold importDependsStep
      exact depends_mem_fold _ _ _ hd h1 h2
    · refine ih _ h' ?_ ?_
      · rw [importDependsStep_nodes]; exact h1
      · rw [importDependsStep_nodes]; exact h2

/-- After one import, every distinct layer label has its Layer node. -/
theorem import_data_layer_nodes {pkgs : List (String × PkgInfo)} {l : String}
    (s : Store) (ns : String) (hl : l ∈ allLayers pkgs) :
    layerNode l ns ∈ (import_data s pkgs ns).nodes := by
  unfold import_data
  rw [importDependsOn_nodes]
  exact mem_nodes_importPackages pkgs ns (layer_mem_importLayers s ns hl)

/-- After one import, every record has its Package node. -/
theorem import_data_pkg_nodes {pkgs : List (String × PkgInfo)} {p : String × PkgInfo}
    (s : Store) (ns : String) (hp : p ∈ pkgs) :
    pkgNode p.1 ns ∈ (import_data s pkgs ns).nodes := by
  unfold import_data
  rw [importDependsOn_nodes]
  exact pkg_mem_importPackages _ ns hp

/-- After one import, every record/layer pair has its BELONGS_TO relationship. -/
theorem import_data_belongs_rels {pkgs : List (String × PkgInfo)} {p : String × PkgInfo}
    {l : String} (s : Store) (ns : String) (hp : p ∈ pkgs) (hl : l ∈ p.2.layers) :
    (StoreRel.mk RelKind.belongs_to (pkgNode p.1 ns) (layerNode l ns) ns) ∈
      (import_data s pkgs ns).rels := by
  unfold import_data
  refine mem_rels_importDependsOn pkgs ns ?_
  refine belongs_mem_importPackages _ ns hp hl ?_
  intro q hq m hm
  exact layer_mem_importLayers s ns (mem_allLayers hq hm)

/-- After one import, a dependency whose target Package node exists in the
final store has its DEPENDS_ON relationship. -/
theorem import_data_depends_rels {pkgs : List (String × PkgInfo)} {p : String × PkgInfo}
    {d : String} (s : Store) (ns : String) (hp : p ∈ pkgs) (hd : d ∈ p.2.dependencies)
    (h2 : pkgNode d ns ∈ (import_data s pkgs ns).nodes) :
    (StoreRel.mk RelKind.depends_on (pkgNode p.1 ns) (pkgNode d ns) ns) ∈
      (import_data s pkgs ns).rels := by
  unfold import_data at h2 ⊢
  rw [importDependsOn_nodes] at h2
  exact depends_mem_importDependsOn _ ns hp hd (pkg_mem_importPackages _ ns hp) h2

/-- Re-importing the same records into the same namespace is a no-op. -/
theorem import_data_idem (s : Store) (pkgs : List (String × PkgInfo)) (ns : String) :
    import_data (import_data s pkgs ns) pkgs ns = import_data s pkgs ns := by
  have F1 : ∀ l ∈ allLayers pkgs, layerNode l ns ∈ (import_data s pkgs ns).nodes :=
    fun l hl => import_data_layer_nodes s ns hl
  have F2 : ∀ p ∈ pkgs, pkgNode p.1 ns ∈ (import_data s pkgs ns).nodes :=
    fun p hp => import_data_pkg_nodes s ns hp
  have F3 : ∀ p ∈ pkgs, ∀ l ∈ p.2.layers,
      (StoreRel.mk RelKind.belongs_to (pkgNode p.1 ns) (layerNode l ns) ns) ∈
        (import_data s pkgs ns).rels :=
    fun p hp l hl => import_data_belongs_rels s ns hp hl
  have F4 : ∀ p ∈ pkgs, ∀ d ∈ p.2.dependencies,
      pkgNode d ns ∈ (import_data s pkgs ns).nodes →
      (StoreRel.mk RelKind.depends_on (pkgNode p.1 ns) (pkgNode d ns) ns) ∈
        (import_data s pkgs ns).rels :=
    fun p hp d hd h2 => import_data_depends_rels s ns hp hd h2
  set s1 := import_data s pkgs ns with hs1
  have hA : importLayers s1 pkgs ns = s1 := by
    unfold importLayers
    exact foldl_fixed _ _ _ (fun l hl => mergeNode_eq_of_mem (F1 l hl))
  have hB : importPackages s1 pkgs ns = s1 := by
    unfold importPackages
    refine foldl_fixed _ _ _ ?_
    intro p hp
    unfold importPackageStep
    rw [mergeNode_eq_of_mem (F2 p hp)]
    exact foldl_fixed _ _ _ (fun l hl => mergeBelongs_eq_of_mem (F3 p hp l hl))
  have hC : importDependsOn s1 pkgs ns = s1 := by
    unfold importDependsOn
    refine foldl_fixed _ _ _ ?_
    intro p hp
    unfold importDependsStep
    refine foldl_fixed _ _ _ ?_
    intro d hd
    exact mergeDepends_eq_of_mem (fun _ h2 => F4 p hp d hd h2)
  show importDependsOn (importPackages (importLayers s1 pkgs ns) pkgs ns) pkgs ns = s1
  rw [hA, hB, hC]

/-- C4: importing the same records into the same namespace twice leaves the
store — and in particular its Package, Layer, DEPENDS_ON and BELONGS_TO counts
— exactly as importing them once (`import_data` is idempotent on store state). -/
theorem c4_import_idempotent (s : Store) (pkgs : List (String × PkgInfo)) (ns : String) :
    import_data (import_data s pkgs ns) pkgs ns = import_data s pkgs ns ∧
    countPackages (import_data (import_data s pkgs ns) pkgs ns) =
      countPackages (import_data s pkgs ns) ∧
    countLayers (import_data (import_data s pkgs ns) pkgs ns) =
      countLayers (import_data s pkgs ns) ∧
    countDepends (import_data (import_data s pkgs ns) pkgs ns) =
      countDepends (import_data s pkgs ns) ∧
    countBelongs (import_data (import_data s pkgs ns) pkgs ns) =
      countBelongs (import_data s pkgs ns) := by
  have h := import_data_idem s pkgs ns
  exact ⟨h, by rw [h], by rw [h], by rw [h], by rw [h]⟩

/-! ## C1: the interchange round-trip -/

/-- C1 is refuted as stated: a layer label containing a comma (here from layer
input line `"a,b"`, whose first whitespace-delimited token is `a,b`) is written
as `Layers: a,b` and reparsed as the two layers `a` and `b`. -/
theorem c1_roundtrip_counterexample :
    parse_combined_output (output_combined_data
      (combine_data (parse_dot_file []) (parse_layers_file ["p:", "a,b"]))) ≠
      combine_data (parse_dot_file []) (parse_layers_file ["p:", "a,b"]) := by decide

/-! ### String toolkit for the round-trip proof -/

theorem isPrefixB_subset {p s : List Char} (h : isPrefixB p s = true) : ∀ x ∈ p, x ∈ s := by
  induction p generalizing s with
  | nil => intro x hx; cases hx
  | cons a as ih =>
    cases s with
    | nil => cases h
    | cons b bs =>
      rw [isPrefixB, Bool.and_eq_true, decide_eq_true_eq] at h
      intro x hx
      rcases List.mem_cons.mp hx with rfl | hx'
      · exact h.1 ▸ List.mem_cons_self _ _
      · exact List.mem_cons_of_mem _ (ih h.2 x hx')

theorem isPrefixB_append_self (p t : List Char) : isPrefixB p (p ++ t) = true := by
  induction p with
  | nil => rfl
  | cons a as ih => simp [isPrefixB, ih]

/-- `str.replace(pat, '')` is the identity on a string avoiding some character
of the pattern. -/
theorem removeAllAux_of_char {pat : List Char} {c : Char} (hc : c ∈ pat) :
    ∀ (fuel : Nat) (s : List Char), (∀ d ∈ s, d ≠ c) → removeAllAux pat fuel s = s := by
  intro fuel
  induction fuel with
  | zero => intro s _; rfl
  | succ n ih =>
    intro s h
    cases s with
    | nil => rfl
    | cons a t =>
      rw [removeAllAux, if_neg, ih t (fun d hd => h d (List.mem_cons_of_mem _ hd))]
      intro hcontra
      rw [Bool.and_eq_true] at hcontra
      exact h c (isPrefixB_subset hcontra.1 c hc) rfl

theorem removeAllAux_succ_cons (pat : List Char) (n : Nat) (c : Char) (cs : List Char) :
    removeAllAux pat (n + 1) (c :: cs) =
      if isPrefixB pat (c :: cs) && decide (pat ≠ []) then
        removeAllAux pat n (List.drop (pat.length - 1) cs)
      else c :: removeAllAux pat n cs := rfl

/-- `(pre ++ rest).replace(pre, '')` recovers `rest` when `rest` avoids some
character of `pre`. -/
theorem pyRemove_leading {pre rest : String} {c : Char} (hc : c ∈ pre.data)
    (hrest : ∀ d ∈ rest.data, d ≠ c) : pyRemove (pre ++ rest) pre = rest := by
  unfold pyRemove
  rw [String.data_append]
  cases hpre : pre.data with
  | nil => rw [hpre] at hc; cases hc
  | cons p0 pr =>
    have hlen : (p0 :: (pr ++ rest.data)).length = (pr.length + rest.data.length) + 1 := by
      simp
    rw [List.cons_append, hlen, removeAllAux_succ_cons, if_pos]
    · have hdrop : List.drop ((p0 :: pr).length - 1) (pr ++ rest.data) = rest.data := by
        simp [List.drop_left]
      rw [hdrop, removeAllAux_of_char (hpre ▸ hc) _ _ hrest]
    · rw [Bool.and_eq_true]
      constructor
      · rw [← List.cons_append]
        exact isPrefixB_append_self _ _
      · simp

theorem dropWhile_eq_self_of_head {p : Char → Bool} {s : List Char}
    (h : ∀ c ∈ s, ¬ p c) : s.dropWhile p = s := by
  cases s with
  | nil => rfl
  | cons a t =>
    rw [List.dropWhile_cons, if_neg]
    simp only [Bool.not_eq_true] at h ⊢
    exact (h a (List.mem_cons_self _ _))

theorem pyrstripL_of_ends {s : List Char} (u : List Char) (c : Char)
    (hs : s = u ++ [c]) (hc : ¬c.isWhitespace) : pyrstripL s = s := by
  subst hs
  unfold pyrstripL
  rw [List.reverse_append, List.reverse_singleton, List.singleton_append,
    List.dropWhile_cons, if_neg (by simpa using hc)]
  simp

theorem pyrstripL_of_nonws {s : List Char} (h : ∀ c ∈ s, ¬c.isWhitespace) :
    pyrstripL s = s := by
  unfold pyrstripL
  rw [dropWhile_eq_self_of_head (fun c hc => h c (List.mem_reverse.mp hc))]
  exact List.reverse_reverse s

theorem pystripL_of_nonws {s : List Char} (h : ∀ c ∈ s, ¬c.isWhitespace) :
    pystripL s = s := by
  unfold pystripL
  rw [dropWhile_eq_self_of_head h]
  exact pyrstripL_of_nonws h

theorem pystrip_of_nonws {s : String} (h : ∀ c ∈ s.data, ¬c.isWhitespace) :
    pystrip s = s := by
  unfold pystrip
  rw [pystripL_of_nonws h]

theorem takeWhile_append_stop {p : Char → Bool} {u : List Char} (v0 : Char) (v : List Char)
    (hu : ∀ c ∈ u, p c = true) (hv : p v0 = false) :
    (u ++ v0 :: v).takeWhile p = u := by
  induction u with
  | nil => simp [List.takeWhile_cons, hv]
  | cons a t ih =>
    rw [List.cons_append, List.takeWhile_cons, hu a (List.mem_cons_self _ _),
      ih (fun c hc => hu c (List.mem_cons_of_mem _ hc))]
    simp

theorem dropWhile_ws_append_of_head {s : List Char} (h : ∀ c ∈ s, ¬c.isWhitespace) :
    List.dropWhile Char.isWhitespace s = s :=
  dropWhile_eq_self_of_head h

theorem goodNameB_spec {s : String} (h : goodNameB s = true) :
    s.data ≠ [] ∧ ∀ c ∈ s.data, ¬c.isWhitespace ∧ c ≠ '(' := by
  unfold goodNameB at h
  rw [Bool.and_eq_true, List.all_eq_true] at h
  refine ⟨by simpa using h.1, fun c hc => ?_⟩
  have := h.2 c hc
  rw [Bool.and_eq_true] at this
  exact ⟨by simpa using this.1, by simpa using this.2⟩

theorem goodLayerB_spec {s : String} (h : goodLayerB s = true) :
    s.data ≠ [] ∧ ∀ c ∈ s.data, ¬c.isWhitespace ∧ c ≠ ',' ∧ c ≠ ':' ∧ c ≠ '(' := by
  unfold goodLayerB at h
  rw [Bool.and_eq_true, List.all_eq_true] at h
  refine ⟨by simpa using h.1, fun c hc => ?_⟩
  have := h.2 c hc
  rw [Bool.and_eq_true, Bool.and_eq_true, Bool.and_eq_true] at this
  exact ⟨by simpa using this.1.1.1, by simpa using this.1.1.2,
    by simpa using this.1.2, by simpa using this.2⟩

/-! ### joinComma and splitComma -/

theorem joinComma_chars {layers : List String} :
    ∀ c ∈ (joinComma layers).data, (∃ l ∈ layers, c ∈ l.data) ∨ c = ',' ∨ c = ' ' := by
  induction layers with
  | nil => intro c hc; cases hc
  | cons l ls ih =>
    cases ls with
    | nil =>
      intro c hc
      exact Or.inl ⟨l, List.mem_cons_self _ _, hc⟩
    | cons l2 ls2 =>
      intro c hc
      rw [show joinComma (l :: l2 :: ls2) = l ++ ", " ++ joinComma (l2 :: ls2) from rfl,
        String.data_append, String.data_append] at hc
      rcases List.mem_append.mp hc with hc' | hc'
      · rcases List.mem_append.mp hc' with hc'' | hc''
        · exact Or.inl ⟨l, List.mem_cons_self _ _, hc''⟩
        · rcases List.mem_cons.mp hc'' with rfl | hc3
          · exact Or.inr (Or.inl rfl)
          · rcases List.mem_cons.mp hc3 with rfl | hc4
            · exact Or.inr (Or.inr rfl)
            · cases hc4
      · rcases ih c hc' with ⟨l', hl', hcl'⟩ | hc''
        · exact Or.inl ⟨l', List.mem_cons_of_mem _ hl', hcl'⟩
        · exact Or.inr hc''

theorem joinComma_head {layers : List String} (hne : layers ≠ [])
    (hnonempty : ∀ l ∈ layers, l.data ≠ []) :
    ∃ c cs, (joinComma layers).data = c :: cs ∧ ∃ l ∈ layers, c ∈ l.data := by
  cases layers with
  | nil => exact absurd rfl hne
  | cons l ls =>
    have hl := hnonempty l (List.mem_cons_self _ _)
    cases hld : l.data with
    | nil => exact absurd hld hl
    | cons c cs' =>
      cases ls with
      | nil =>
        exact ⟨c, cs', hld, l, List.mem_cons_self _ _, hld ▸ List.mem_cons_self _ _⟩
      | cons l2 ls2 =>
        refine ⟨c, cs' ++ (", " ++ joinComma (l2 :: ls2)).data, ?_,
          l, List.mem_cons_self _ _, hld ▸ List.mem_cons_self _ _⟩
        rw [show joinComma (l :: l2 :: ls2) = l ++ ", " ++ joinComma (l2 :: ls2) from rfl,
          String.data_append, String.data_append, hld]
        simp

theorem joinComma_ends {layers : List String} (hne : layers ≠ [])
    (hnonempty : ∀ l ∈ layers, l.data ≠ []) :
    ∃ u c, (joinComma layers).data = u ++ [c] ∧ ∃ l ∈ layers, c ∈ l.data := by
  induction layers with
  | nil => exact absurd rfl hne
  | cons l ls ih =>
    cases ls with
    | nil =>
      rcases List.eq_nil_or_concat l.data with h | ⟨u, c, h⟩
      · exact absurd h (hnonempty l (List.mem_cons_self _ _))
      · rw [List.concat_eq_append] at h
        exact ⟨u, c, h, l, List.mem_cons_self _ _,
          h ▸ List.mem_append_right _ (List.mem_singleton_self c)⟩
    | cons l2 ls2 =>
      obtain ⟨u, c, hu, l', hl', hcl'⟩ := ih (by simp)
        (fun m hm => hnonempty m (List.mem_cons_of_mem _ hm))
      refine ⟨l.data ++ ", ".data ++ u, c, ?_, l', List.mem_cons_of_mem _ hl', hcl'⟩
      rw [show joinComma (l :: l2 :: ls2) = l ++ ", " ++ joinComma (l2 :: ls2) from rfl,
        String.data_append, String.data_append, hu]
      simp

theorem splitComma_cons (c : Char) (cs : List Char) :
    splitComma (c :: cs) =
      match splitComma cs with
      | t :: ts => if c = ',' then [] :: t :: ts else (c :: t) :: ts
      | [] => [[c]] := rfl

theorem splitComma_ne_nil (s : List Char) : splitComma s ≠ [] := by
  cases s with
  | nil => simp [splitComma]
  | cons c cs =>
    rw [splitComma_cons]
    rcases h : splitComma cs with _ | ⟨t, ts⟩
    · simp
    · by_cases hc : c = ',' <;> simp [hc]

theorem splitComma_no_comma {s : List Char} (h : ∀ c ∈ s, c ≠ ',') : splitComma s = [s] := by
  induction s with
  | nil => rfl
  | cons c cs ih =>
    rw [splitComma_cons, ih (fun d hd => h d (List.mem_cons_of_mem _ hd))]
    simp [h c (List.mem_cons_self _ _)]

theorem splitComma_append_nc {u v t : List Char} {ts : List (List Char)}
    (hu : ∀ c ∈ u, c ≠ ',') (hv : splitComma v = t :: ts) :
    splitComma (u ++ v) = (u ++ t) :: ts := by
  induction u with
  | nil => simpa using hv
  | cons c u' ih =>
    rw [List.cons_append, splitComma_cons,
      ih (fun d hd => hu d (List.mem_cons_of_mem _ hd))]
    simp [hu c (List.mem_cons_self _ _)]

theorem pystripL_cons_space (t : List Char) : pystripL (' ' :: t) = pystripL t := by
  unfold pystripL
  rw [List.dropWhile_cons, if_pos (by decide)]

/-- Splitting the comma-joined labels on commas and stripping each piece
recovers the labels, when the labels are nonempty, whitespace-free and
comma-free. -/
theorem split_join {layers : List String} (hne : layers ≠ [])
    (hgood : ∀ l ∈ layers, goodLayerB l = true) :
    (splitCommaStr (joinComma layers)).map pystrip = layers := by
  have key : ∀ (ls : List String), ls ≠ [] → (∀ l ∈ ls, goodLayerB l = true) →
      (splitComma (joinComma ls).data).map (fun t => pystrip (String.mk t)) = ls := by
    intro ls
    induction ls with
    | nil => intro h; exact absurd rfl h
    | cons l rest ih =>
      intro _ hgood'
      have hlg := goodLayerB_spec (hgood' l (List.mem_cons_self _ _))
      cases rest with
      | nil =>
        show (splitComma l.data).map (fun t => pystrip (String.mk t)) = [l]
        rw [splitComma_no_comma (fun c hc => (hlg.2 c hc).2.1)]
        show [pystrip l] = [l]
        rw [pystrip_of_nonws (fun c hc => (hlg.2 c hc).1)]
      | cons l2 rest2 =>
        have hrest := ih (by simp) (fun m hm => hgood' m (List.mem_cons_of_mem _ hm))
        rcases hsc : splitComma (joinComma (l2 :: rest2)).data with _ | ⟨t, ts⟩
        · exact absurd hsc (splitComma_ne_nil _)
        · have hspace : splitComma (' ' :: (joinComma (l2 :: rest2)).data) =
              (' ' :: t) :: ts := by
            rw [splitComma_cons, hsc]
            simp
          have hcomma : splitComma (',' :: ' ' :: (joinComma (l2 :: rest2)).data) =
              [] :: (' ' :: t) :: ts := by
            rw [splitComma_cons, hspace]
            simp
          have hwhole : splitComma ((joinComma (l :: l2 :: rest2)).data) =
              l.data :: (' ' :: t) :: ts := by
            rw [show joinComma (l :: l2 :: rest2) = l ++ ", " ++ joinComma (l2 :: rest2)
              from rfl, String.data_append, String.data_append]
            rw [show ", ".data = [',', ' '] from rfl, List.append_assoc]
            rw [show ([',', ' '] : List Char) ++ (joinComma (l2 :: rest2)).data =
              ',' :: ' ' :: (joinComma (l2 :: rest2)).data from rfl]
            rw [splitComma_append_nc (fun c hc => (hlg.2 c hc).2.1) hcomma]
            simp
          rw [hwhole]
          show pystrip (String.mk l.data) :: (((' ' :: t) :: ts).map
            (fun t => pystrip (String.mk t))) = l :: l2 :: rest2
          have h1 : pystrip (String.mk l.data) = l :=
            pystrip_of_nonws (fun c hc => (hlg.2 c hc).1)
          have h2 : pystrip (String.mk (' ' :: t)) = pystrip (String.mk t) := by
            unfold pystrip
            rw [show (String.mk (' ' :: t)).data = ' ' :: t from rfl,
              pystripL_cons_space]
          rw [h1]
          show l :: (pystrip (String.mk (' ' :: t)) :: ts.map (fun t => pystrip (String.mk t)))
            = l :: l2 :: rest2
          rw [h2]
          have : pystrip (String.mk t) :: ts.map (fun t => pystrip (String.mk t)) =
              (t :: ts).map (fun t => pystrip (String.mk t)) := rfl
          rw [this, ← hsc, hrest]
  unfold splitCommaStr
  rw [List.map_map]
  exact key layers hne hgood

/-! ### Reader behaviour on each writer line -/

theorem char_ne_space_of_nonws {c : Char} (h : ¬c.isWhitespace) : c ≠ ' ' :=
  fun hEq => h (hEq ▸ (by decide : (' ').isWhitespace = true))

theorem pyrstrip_of_data_ends {s : String} (u : List Char) (c : Char)
    (h : s.data = u ++ [c]) (hc : ¬c.isWhitespace) : pyrstrip s = s := by
  unfold pyrstrip
  rw [pyrstripL_of_ends u c h hc]

theorem pyrstrip_append_of_good {pre name : String} (h : goodNameB name = true) :
    pyrstrip (pre ++ name) = pre ++ name := by
  obtain ⟨hne, hchars⟩ := goodNameB_spec h
  rcases List.eq_nil_or_concat name.data with h' | ⟨u, c, h'⟩
  · exact absurd h' hne
  · rw [List.concat_eq_append] at h'
    refine pyrstrip_of_data_ends (pre.data ++ u) c ?_ ?_
    · rw [String.data_append, h', List.append_assoc]
    · exact (hchars c (h' ▸ List.mem_append_right _ (List.mem_singleton_self c))).1

theorem data_pkg_line (name : String) :
    ("Package: " ++ name).data =
      'P' :: 'a' :: 'c' :: 'k' :: 'a' :: 'g' :: 'e' :: ':' :: ' ' :: name.data := by
  rw [String.data_append]
  rfl

theorem pkg_line_header_false (name : String) :
    pyStartswith ("Package: " ++ name) "Package Dependency and Layer Information" = false := by
  unfold pyStartswith
  rw [data_pkg_line]
  rfl

theorem pkg_line_eq_false (name : String) :
    pyStartswith ("Package: " ++ name) "=" = false := by
  unfold pyStartswith
  rw [data_pkg_line]
  rfl

theorem pkg_line_pkg_true (name : String) :
    pyStartswith ("Package: " ++ name) "Package: " = true := by
  unfold pyStartswith
  rw [data_pkg_line]
  rfl

/-- The reader's `Package:` branch on a well-behaved written package line. -/
theorem rstep_package_line (st : RState) {name : String} (h : goodNameB name = true) :
    rstep st ("Package: " ++ name) =
      RState.mk (dictSet st.packages name (PkgInfo.mk [] [])) (some name) false := by
  obtain ⟨hne, hchars⟩ := goodNameB_spec h
  have hcur : pystrip (pyRemove ("Package: " ++ name) "Package: ") = name := by
    rw [pyRemove_leading (c := ' ') (by decide)
      (fun d hd => char_ne_space_of_nonws (hchars d hd).1)]
    exact pystrip_of_nonws (fun c hc => (hchars c hc).1)
  simp only [rstep, pyrstrip_append_of_good h]
  rw [if_neg, if_pos, hcur]
  · exact (by rw [pkg_line_pkg_true])
  · intro hcontra
    rcases hcontra with h' | h'
    · rw [pkg_line_header_false] at h'
      cases h'
    · rw [pkg_line_eq_false] at h'
      cases h'

theorem ne_of_data_head {s t : String} {c d : Char} {cs ds : List Char}
    (hs : s.data = c :: cs) (ht : t.data = d :: ds) (hcd : c ≠ d) : s ≠ t := by
  intro he
  rw [he, ht] at hs
  injection hs with h1 _
  exact hcd h1.symm

theorem truthy_of_goodName {st : RState} {cp : String} (hc : st.current = some cp)
    (hne : cp ≠ "") : truthyOpt st.current = true := by
  rw [hc]
  unfold truthyOpt
  exact decide_eq_true hne

/-- The reader on the written `Layers: (not found ...)` marker line. -/
theorem rstep_layers_marker (st : RState) (cp : String) (hc : st.current = some cp)
    (hne : cp ≠ "") :
    rstep st "  Layers: (not found in package-layers.txt)" = st := by
  simp only [rstep]
  rw [show pyrstrip "  Layers: (not found in package-layers.txt)" =
    "  Layers: (not found in package-layers.txt)" from rfl]
  rw [if_neg (by decide), if_neg (by decide),
    if_pos ⟨by decide, truthy_of_goodName hc hne⟩, if_pos (by decide)]

/-- The reader on the written `  Dependencies:` line. -/
theorem rstep_deps_header (st : RState) (cp : String) (hc : st.current = some cp)
    (hne : cp ≠ "") :
    rstep st "  Dependencies:" = { st with in_dependencies := true } := by
  simp only [rstep]
  rw [show pyrstrip "  Dependencies:" = "  Dependencies:" from rfl]
  rw [if_neg (by decide), if_neg (by decide),
    if_neg (fun h => absurd h.1 (by decide)),
    if_pos ⟨by decide, truthy_of_goodName hc hne⟩]

/-- The reader on the written `  Dependencies: none` line. -/
theorem rstep_deps_none (st : RState) (cp : String) (hc : st.current = some cp)
    (hne : cp ≠ "") :
    rstep st "  Dependencies: none" = { st with in_dependencies := false } := by
  simp only [rstep]
  rw [show pyrstrip "  Dependencies: none" = "  Dependencies: none" from rfl]
  rw [if_neg (by decide), if_neg (by decide),
    if_neg (fun h => absurd h.1 (by decide)),
    if_neg (fun h => absurd h.1 (by decide)),
    if_neg (fun h => absurd h.2 (by decide)),
    if_pos ⟨by decide, truthy_of_goodName hc hne⟩]

/-- The reader on the blank separator line. -/
theorem rstep_blank (st : RState) : rstep st "" = st := by
  simp only [rstep]
  rw [show pyrstrip "" = "" from rfl]
  rw [if_neg (by decide), if_neg (by decide),
    if_neg (fun h => absurd h.1 (by decide)),
    if_neg (fun h => absurd h.1 (by decide)),
    if_neg (fun h => absurd h.2 (by decide)),
    if_neg (fun h => absurd h.1 (by decide))]

/-- The reader on the two header lines and their trailing blank. -/
theorem rstep_header_title (st : RState) :
    rstep st "Package Dependency and Layer Information" = st := by
  simp only [rstep]
  rw [show pyrstrip "Package Dependency and Layer Information" =
    "Package Dependency and Layer Information" from rfl]
  rw [if_pos (Or.inl (by decide))]

theorem rstep_header_rule (st : RState) :
    rstep st (String.mk (List.replicate 80 '=')) = st := by
  simp only [rstep]
  rw [show pyrstrip (String.mk (List.replicate 80 '=')) =
    String.mk (List.replicate 80 '=') from rfl]
  rw [if_pos (Or.inr (by decide))]

theorem data_layers_line (j : String) :
    ("  Layers: " ++ j).data =
      ' ' :: ' ' :: 'L' :: 'a' :: 'y' :: 'e' :: 'r' :: 's' :: ':' :: ' ' :: j.data := by
  rw [String.data_append]
  rfl

theorem data_layers_strip (j : String) :
    ("Layers: " ++ j).data =
      'L' :: 'a' :: 'y' :: 'e' :: 'r' :: 's' :: ':' :: ' ' :: j.data := by
  rw [String.data_append]
  rfl

/-- The reader's `Layers:` branch on a written nonempty layers line. -/
theorem rstep_layers_line (st : RState) (cp : String) {layers : List String}
    (hc : st.current = some cp) (hne : cp ≠ "") (hlne : layers ≠ [])
    (hgood : ∀ l ∈ layers, goodLayerB l = true) :
    rstep st ("  Layers: " ++ joinComma layers) =
      { st with packages := (dictModify st.packages cp
          (fun info => { info with layers := layers })) } := by
  have hnonempty : ∀ l ∈ layers, l.data ≠ [] := fun l hl => (goodLayerB_spec (hgood l hl)).1
  have hchars : ∀ l ∈ layers, ∀ c ∈ l.data, ¬c.isWhitespace ∧ c ≠ ',' ∧ c ≠ ':' ∧ c ≠ '(' :=
    fun l hl => (goodLayerB_spec (hgood l hl)).2
  obtain ⟨u, cl, hu, l', hl', hcl'⟩ := joinComma_ends hlne hnonempty
  have hrstrip : pyrstrip ("  Layers: " ++ joinComma layers) =
      "  Layers: " ++ joinComma layers := by
    refine pyrstrip_of_data_ends ("  Layers: ".data ++ u) cl ?_ (hchars l' hl' cl hcl').1
    rw [String.data_append, hu, List.append_assoc]
  have hstrip : pystrip ("  Layers: " ++ joinComma layers) =
      "Layers: " ++ joinComma layers := by
    unfold pystrip pystripL
    rw [data_layers_line]
    rw [show List.dropWhile Char.isWhitespace
      (' ' :: ' ' :: 'L' :: 'a' :: 'y' :: 'e' :: 'r' :: 's' :: ':' :: ' '
        :: (joinComma layers).data) =
      'L' :: 'a' :: 'y' :: 'e' :: 'r' :: 's' :: ':' :: ' ' :: (joinComma layers).data from rfl]
    rw [show ('L' :: 'a' :: 'y' :: 'e' :: 'r' :: 's' :: ':' :: ' ' :: (joinComma layers).data) =
      ("Layers: " ++ joinComma layers).data from (data_layers_strip _).symm]
    rw [pyrstripL_of_ends ("Layers: ".data ++ u) cl
      (by rw [String.data_append, hu, List.append_assoc]) (hchars l' hl' cl hcl').1]
  have hremove : pyRemove ("Layers: " ++ joinComma layers) "Layers: " = joinComma layers := by
    refine pyRemove_leading (c := ':') (by decide) ?_
    intro dch hd
    rcases joinComma_chars dch hd with ⟨l2, hl2, hdl2⟩ | h' | h'
    · exact (hchars l2 hl2 dch hdl2).2.2.1
    · rw [h']; decide
    · rw [h']; decide
  have hmarker : ¬(joinComma layers = "(not found in package-layers.txt)") := by
    obtain ⟨c0, cs0, hc0, l0, hl0, hcl0⟩ := joinComma_head hlne hnonempty
    exact ne_of_data_head hc0
      (show "(not found in package-layers.txt)".data = '(' ::
        "not found in package-layers.txt)".data from rfl)
      (hchars l0 hl0 c0 hcl0).2.2.2
  have c1 : pyStartswith ("  Layers: " ++ joinComma layers)
      "Package Dependency and Layer Information" = false := by
    unfold pyStartswith
    rw [data_layers_line]
    rfl
  have c2 : pyStartswith ("  Layers: " ++ joinComma layers) "=" = false := by
    unfold pyStartswith
    rw [data_layers_line]
    rfl
  have c3 : pyStartswith ("  Layers: " ++ joinComma layers) "Package: " = false := by
    unfold pyStartswith
    rw [data_layers_line]
    rfl
  have c4 : pyStartswith ("Layers: " ++ joinComma layers) "Layers: " = true := by
    unfold pyStartswith
    rw [data_layers_strip]
    rfl
  simp only [rstep]
  rw [hrstrip, hstrip]
  rw [if_neg (by rw [c1, c2]; simp), if_neg (by rw [c3]; simp),
    if_pos ⟨c4, truthy_of_goodName hc hne⟩, hremove, if_neg hmarker, hc]
  rw [split_join hlne hgood]

theorem data_dep_line (d body : String) :
    ("    - " ++ d ++ " (" ++ body ++ ")").data =
      ' ' :: ' ' :: ' ' :: ' ' :: '-' :: ' ' ::
        (d.data ++ (' ' :: '(' :: (body.data ++ [')']))) := by
  rw [String.data_append, String.data_append, String.data_append, String.data_append]
  rw [show "    - ".data = [' ', ' ', ' ', ' ', '-', ' '] from rfl,
    show " (".data = [' ', '('] from rfl, show ")".data = [')'] from rfl]
  simp

theorem dropWhile_cons_neg {p : Char → Bool} {c : Char} (cs : List Char) (h : p c = false) :
    List.dropWhile p (c :: cs) = c :: cs := by
  rw [List.dropWhile_cons, if_neg]
  simp [h]

theorem depToken_of_drop {s : String} {r : List Char}
    (h : s.data.dropWhile Char.isWhitespace = '-' :: r) :
    depToken s =
      if ((r.dropWhile Char.isWhitespace).takeWhile
          (fun c => !c.isWhitespace && !decide (c = '('))).isEmpty then none
      else some (String.mk ((r.dropWhile Char.isWhitespace).takeWhile
        (fun c => !c.isWhitespace && !decide (c = '(')))) := by
  unfold depToken
  rw [h]
  rfl

/-- The token-extracting regex on a written dependency line. -/
theorem depToken_dep_line {d : String} (body : String) (hd : goodNameB d = true) :
    depToken ("    - " ++ d ++ " (" ++ body ++ ")") = some d := by
  obtain ⟨hne, hchars⟩ := goodNameB_spec hd
  have h1 : ("    - " ++ d ++ " (" ++ body ++ ")").data.dropWhile Char.isWhitespace =
      '-' :: ' ' :: (d.data ++ (' ' :: '(' :: (body.data ++ [')']))) := by
    rw [data_dep_line]
    rfl
  rw [depToken_of_drop h1]
  have h2 : (' ' :: (d.data ++ (' ' :: '(' :: (body.data ++ [')'])))).dropWhile
      Char.isWhitespace = d.data ++ (' ' :: '(' :: (body.data ++ [')'])) := by
    rw [List.dropWhile_cons, if_pos (by decide)]
    cases hdd : d.data with
    | nil => exact absurd hdd hne
    | cons c0 cs0 =>
      rw [List.cons_append]
      refine dropWhile_cons_neg _ ?_
      have := (hchars c0 (hdd ▸ List.mem_cons_self _ _)).1
      exact Bool.eq_false_iff.mpr this
  have h3 : (d.data ++ (' ' :: '(' :: (body.data ++ [')']))).takeWhile
      (fun c => !c.isWhitespace && !decide (c = '(')) = d.data := by
    refine takeWhile_append_stop ' ' _ ?_ (by decide)
    intro c hcm
    have hcc := hchars c hcm
    have hb1 : c.isWhitespace = false := Bool.eq_false_iff.mpr hcc.1
    have hb2 : decide (c = '(') = false := decide_eq_false hcc.2
    simp [hb1, hb2]
  rw [h2, h3, if_neg (by simpa using hne)]

theorem data_strip_dep_line (d body : String) :
    (String.mk ('-' :: ' ' :: (d.data ++ (' ' :: '(' :: (body.data ++ [')']))))).data =
      '-' :: ' ' :: (d.data ++ (' ' :: '(' :: (body.data ++ [')']))) := rfl

/-- The reader's dependency branch on a written dependency line. -/
theorem rstep_dep_line (st : RState) (cp : String) {d : String} (body : String)
    (hc : st.current = some cp) (hdeps : st.in_dependencies = true)
    (hd : goodNameB d = true) :
    rstep st ("    - " ++ d ++ " (" ++ body ++ ")") =
      { st with packages := (dictModify st.packages cp
          (fun info => { info with dependencies := info.dependencies ++ [d] })) } := by
  have hends : ("    - " ++ d ++ " (" ++ body ++ ")").data =
      (' ' :: ' ' :: ' ' :: ' ' :: '-' :: ' ' ::
        (d.data ++ (' ' :: '(' :: body.data))) ++ [')'] := by
    rw [data_dep_line]
    simp
  have hrstrip : pyrstrip ("    - " ++ d ++ " (" ++ body ++ ")") =
      "    - " ++ d ++ " (" ++ body ++ ")" :=
    pyrstrip_of_data_ends _ ')' hends (by decide)
  have hstrip : pystrip ("    - " ++ d ++ " (" ++ body ++ ")") =
      String.mk ('-' :: ' ' :: (d.data ++ (' ' :: '(' :: (body.data ++ [')'])))) := by
    unfold pystrip pystripL
    rw [data_dep_line]
    rw [show List.dropWhile Char.isWhitespace
        (' ' :: ' ' :: ' ' :: ' ' :: '-' :: ' ' ::
          (d.data ++ (' ' :: '(' :: (body.data ++ [')'])))) =
        '-' :: ' ' :: (d.data ++ (' ' :: '(' :: (body.data ++ [')']))) from rfl]
    rw [pyrstripL_of_ends ('-' :: ' ' :: (d.data ++ (' ' :: '(' :: body.data))) ')'
      (by simp) (by decide)]
  have c1 : pyStartswith ("    - " ++ d ++ " (" ++ body ++ ")")
      "Package Dependency and Layer Information" = false := by
    unfold pyStartswith
    rw [data_dep_line]
    rfl
  have c2 : pyStartswith ("    - " ++ d ++ " (" ++ body ++ ")") "=" = false := by
    unfold pyStartswith
    rw [data_dep_line]
    rfl
  have c3 : pyStartswith ("    - " ++ d ++ " (" ++ body ++ ")") "Package: " = false := by
    unfold pyStartswith
    rw [data_dep_line]
    rfl
  have c4 : pyStartswith
      (String.mk ('-' :: ' ' :: (d.data ++ (' ' :: '(' :: (body.data ++ [')'])))))
      "Layers: " = false := by
    unfold pyStartswith
    rfl
  have c5 : String.mk ('-' :: ' ' :: (d.data ++ (' ' :: '(' :: (body.data ++ [')'])))) ≠
      "Dependencies:" :=
    ne_of_data_head (data_strip_dep_line d body)
      (show "Dependencies:".data = 'D' :: "ependencies:".data from rfl) (by decide)
  have c6 : pyStartswith
      (String.mk ('-' :: ' ' :: (d.data ++ (' ' :: '(' :: (body.data ++ [')'])))))
      "- " = true := by
    unfold pyStartswith
    rfl
  simp only [rstep]
  rw [hrstrip, hstrip]
  rw [if_neg (by rw [c1, c2]; simp), if_neg (by rw [c3]; simp),
    if_neg (by rw [c4]; simp), if_neg (by simp [c5]),
    if_pos ⟨hdeps, c6⟩,
    depToken_dep_line body hd, hc]

/-! ### The reader over one whole package block -/

theorem goodName_ne_empty {s : String} (h : goodNameB s = true) : s ≠ "" := by
  intro he
  exact (goodNameB_spec h).1 (by rw [he])

theorem dictGet_eq_none {α : Type} {P : List (String × α)} {k : String}
    (h : ∀ q ∈ P, q.1 ≠ k) : dictGet P k = none := by
  unfold dictGet
  rw [List.find?_eq_none.mpr (fun x hx => by simpa using h x hx)]

theorem dictSet_absent {α : Type} {P : List (String × α)} {k : String} (v : α)
    (h : ∀ q ∈ P, q.1 ≠ k) : dictSet P k v = P ++ [(k, v)] := by
  unfold dictSet
  rw [dictGet_eq_none h]
  rfl

theorem dictModify_dictSet (P : List (String × PkgInfo)) (k : String) (v : PkgInfo)
    (f : PkgInfo → PkgInfo) : dictModify (dictSet P k v) k f = dictSet P k (f v) := by
  unfold dictSet dictModify dictGet
  cases hfind : P.find? (fun p => decide (p.1 = k)) with
  | some q =>
    simp only [hfind, Option.isSome_some, if_pos]
    rw [List.map_map]
    refine List.map_congr_left ?_
    intro p _
    by_cases hp : p.1 = k
    · simp [Function.comp, hp]
    · simp [Function.comp, hp]
  | none =>
    have hnone : ∀ q ∈ P, q.1 ≠ k := by
      intro q hq
      have := List.find?_eq_none.mp hfind q hq
      simpa using this
    simp only [hfind, Option.isSome_none, Bool.false_eq_true, if_false]
    rw [List.map_append]
    have h1 : P.map (fun p => if p.1 = k then (p.1, f p.2) else p) = P := by
      conv_rhs => rw [← List.map_id P]
      refine List.map_congr_left ?_
      intro p hp
      rw [if_neg (hnone p hp)]
      rfl
    rw [h1]
    simp

theorem depLine_shape (m : List (String × PkgInfo)) (dep : String) :
    ∃ body, depLine m dep = "    - " ++ dep ++ " (" ++ body ++ ")" := by
  unfold depLine
  cases h : dictGet m dep with
  | none =>
    refine ⟨"layer: unknown", ?_⟩
    simp only [h, List.isEmpty_nil, if_pos]
    apply String.ext
    simp [String.data_append, List.append_assoc]
  | some info =>
    cases hinfo : info.layers.isEmpty with
    | true =>
      refine ⟨"layer: unknown", ?_⟩
      simp only [h, hinfo, if_pos]
      apply String.ext
      simp [String.data_append, List.append_assoc]
    | false =>
      refine ⟨"layers: " ++ joinComma info.layers, ?_⟩
      simp only [h, hinfo, Bool.false_eq_true, if_false]
      apply String.ext
      simp [String.data_append, List.append_assoc]

theorem foldl_rstep_deps (m : List (String × PkgInfo)) (cp : String) (_hcp : cp ≠ "")
    (ds : List String) (hds : ∀ d ∈ ds, goodNameB d = true) :
    ∀ (acc : List String) (P : List (String × PkgInfo)) (layers : List String),
    (ds.map (depLine m)).foldl rstep
        (RState.mk (dictSet P cp (PkgInfo.mk acc layers)) (some cp) true) =
      RState.mk (dictSet P cp (PkgInfo.mk (acc ++ ds) layers)) (some cp) true := by
  induction ds with
  | nil =>
    intro acc P layers
    simp
  | cons d rest ih =>
    intro acc P layers
    obtain ⟨body, hbody⟩ := depLine_shape m d
    rw [List.map_cons, List.foldl_cons, hbody,
      rstep_dep_line _ cp body rfl rfl (hds d (List.mem_cons_self _ _))]
    have hmod : dictModify (dictSet P cp (PkgInfo.mk acc layers)) cp
        (fun info => { info with dependencies := info.dependencies ++ [d] }) =
        dictSet P cp (PkgInfo.mk (acc ++ [d]) layers) :=
      dictModify_dictSet P cp (PkgInfo.mk acc layers) _
    show (rest.map (depLine m)).foldl rstep
        (RState.mk (dictModify (dictSet P cp (PkgInfo.mk acc layers)) cp
          (fun info => { info with dependencies := info.dependencies ++ [d] }))
          (some cp) true) = _
    rw [hmod, ih (fun e he => hds e (List.mem_cons_of_mem _ he)) (acc ++ [d]) P layers]
    rw [List.append_assoc]
    rfl

/-- The reader folded over a complete written package block (followed by any
remaining lines): it records exactly the package's record and moves on. -/
theorem foldl_rstep_block (m : List (String × PkgInfo)) (nm : String) (deps lys : List String)
    (st : RState) (rest : List String) (hname : goodNameB nm = true)
    (hlay : ∀ l ∈ lys, goodLayerB l = true) (hdep : ∀ d ∈ deps, goodNameB d = true) :
    (packageBlock m (nm, PkgInfo.mk deps lys) ++ rest).foldl rstep st =
      rest.foldl rstep (RState.mk (dictSet st.packages nm (PkgInfo.mk deps lys)) (some nm)
        (!deps.isEmpty)) := by
  have hpne : nm ≠ "" := goodName_ne_empty hname
  have hblock : packageBlock m (nm, PkgInfo.mk deps lys) =
      ["Package: " ++ nm, layersLine lys] ++
        (if deps.isEmpty then ["  Dependencies: none"]
         else "  Dependencies:" :: deps.map (depLine m)) ++ [""] := rfl
  rw [hblock]
  rw [List.append_assoc, List.append_assoc, List.cons_append, List.cons_append,
    List.foldl_cons, rstep_package_line st hname, List.foldl_cons]
  have hlayer_state :
      rstep (RState.mk (dictSet st.packages nm (PkgInfo.mk [] [])) (some nm) false)
        (layersLine lys) =
      RState.mk (dictSet st.packages nm (PkgInfo.mk [] lys)) (some nm) false := by
    cases lys with
    | nil =>
      rw [show layersLine [] = "  Layers: (not found in package-layers.txt)" from rfl]
      rw [rstep_layers_marker _ nm rfl hpne]
    | cons l0 lrest =>
      rw [show layersLine (l0 :: lrest) = "  Layers: " ++ joinComma (l0 :: lrest) from rfl]
      rw [rstep_layers_line _ nm rfl hpne (by simp) hlay]
      show RState.mk (dictModify (dictSet st.packages nm (PkgInfo.mk [] [])) nm
          (fun info => { info with layers := l0 :: lrest })) (some nm) false = _
      rw [dictModify_dictSet]
  rw [hlayer_state]
  cases deps with
  | nil =>
    rw [if_pos (show ([] : List String).isEmpty = true from rfl)]
    simp only [List.nil_append, List.cons_append]
    rw [List.foldl_cons, rstep_deps_none _ nm rfl hpne, List.foldl_cons, rstep_blank]
    rfl
  | cons d0 drest =>
    rw [if_neg (by simp)]
    simp only [List.nil_append, List.cons_append]
    rw [List.foldl_cons, rstep_deps_header _ nm rfl hpne]
    show ((d0 :: drest).map (depLine m) ++ ("" :: rest)).foldl rstep
      (RState.mk (dictSet st.packages nm (PkgInfo.mk [] lys)) (some nm) true) = _
    rw [List.foldl_append, foldl_rstep_deps m nm hpne (d0 :: drest) hdep [] st.packages lys]
    rw [List.foldl_cons, rstep_blank]
    rfl

/-! ### The sort order and the whole-file round trip -/

theorem charListLe_nil (b : List Char) : charListLe [] b = true := rfl

theorem charListLe_cons (x y : Char) (xs ys : List Char) :
    charListLe (x :: xs) (y :: ys) =
      if x.toNat < y.toNat then true
      else if y.toNat < x.toNat then false
      else charListLe xs ys := rfl

theorem charListLe_cons_iff {x y : Char} {xs ys : List Char} :
    charListLe (x :: xs) (y :: ys) = true ↔
      (x.toNat < y.toNat ∨ (x.toNat = y.toNat ∧ charListLe xs ys = true)) := by
  rw [charListLe_cons]
  by_cases h1 : x.toNat < y.toNat
  · simp [h1]
  · by_cases h2 : y.toNat < x.toNat
    · rw [if_neg h1, if_pos h2]
      constructor
      · intro h
        cases h
      · rintro (h | ⟨h, _⟩)
        · omega
        · omega
    · have heq : x.toNat = y.toNat := by omega
      rw [if_neg h1, if_neg h2]
      simp [heq, h1]

theorem charListLe_total : ∀ (a b : List Char), charListLe a b = true ∨ charListLe b a = true := by
  intro a
  induction a with
  | nil => intro b; exact Or.inl (charListLe_nil b)
  | cons x xs ih =>
    intro b
    cases b with
    | nil => exact Or.inr (charListLe_nil _)
    | cons y ys =>
      rcases Nat.lt_trichotomy x.toNat y.toNat with h | h | h
      · exact Or.inl (charListLe_cons_iff.mpr (Or.inl h))
      · rcases ih ys with h' | h'
        · exact Or.inl (charListLe_cons_iff.mpr (Or.inr ⟨h, h'⟩))
        · exact Or.inr (charListLe_cons_iff.mpr (Or.inr ⟨h.symm, h'⟩))
      · exact Or.inr (charListLe_cons_iff.mpr (Or.inl h))

theorem charListLe_trans : ∀ (a b c : List Char), charListLe a b = true →
    charListLe b c = true → charListLe a c = true := by
  intro a
  induction a with
  | nil => intro b c _ _; exact charListLe_nil c
  | cons x xs ih =>
    intro b c hab hbc
    cases b with
    | nil => exact absurd hab (by simp [charListLe])
    | cons y ys =>
      cases c with
      | nil => exact absurd hbc (by simp [charListLe])
      | cons z zs =>
        rcases charListLe_cons_iff.mp hab with h1 | ⟨h1, h1'⟩ <;>
          rcases charListLe_cons_iff.mp hbc with h2 | ⟨h2, h2'⟩
        · exact charListLe_cons_iff.mpr (Or.inl (Nat.lt_trans h1 h2))
        · exact charListLe_cons_iff.mpr (Or.inl (h2 ▸ h1))
        · exact charListLe_cons_iff.mpr (Or.inl (h1 ▸ h2))
        · exact charListLe_cons_iff.mpr (Or.inr ⟨h1.trans h2, ih ys zs h1' h2'⟩)

instance instIsTotalStrLeR : IsTotal String strLeR :=
  ⟨fun a b => charListLe_total a.data b.data⟩

instance instIsTransStrLeR : IsTrans String strLeR :=
  ⟨fun a b c hab hbc => charListLe_trans a.data b.data c.data hab hbc⟩

theorem combine_data_pairwise (d l : List (String × List String)) :
    (combine_data d l).Pairwise (fun a b => strLe a.1 b.1 = true ∧ a.1 ≠ b.1) := by
  unfold combine_data
  rw [List.pairwise_map]
  have hsorted := List.sorted_insertionSort strLeR
    ((dictKeys d ++ dictKeys l ++ (d.map (·.2)).flatten).dedup)
  have hnodup : ((dictKeys d ++ dictKeys l ++ (d.map (·.2)).flatten).dedup.insertionSort
      strLeR).Nodup :=
    (List.perm_insertionSort strLeR _).symm.nodup (List.nodup_dedup _)
  exact hsorted.and hnodup

theorem foldl_rstep_blocks (m : List (String × PkgInfo)) :
    ∀ (recs : List (String × PkgInfo)) (st : RState),
    (∀ p ∈ recs, goodNameB p.1 = true ∧ (∀ l ∈ p.2.layers, goodLayerB l = true) ∧
      (∀ d ∈ p.2.dependencies, goodNameB d = true)) →
    (((recs.map (packageBlock m)).flatten).foldl rstep st).packages =
      recs.foldl (fun P p => dictSet P p.1 p.2) st.packages := by
  intro recs
  induction recs with
  | nil => intro st _; rfl
  | cons p t ih =>
    intro st hgood
    obtain ⟨nm, info⟩ := p
    obtain ⟨deps, lys⟩ := info
    rw [List.map_cons, List.flatten_cons]
    have hg := hgood (nm, PkgInfo.mk deps lys) (List.mem_cons_self _ _)
    rw [foldl_rstep_block m nm deps lys st ((t.map (packageBlock m)).flatten)
      hg.1 hg.2.1 hg.2.2]
    rw [ih _ (fun q hq => hgood q (List.mem_cons_of_mem _ hq))]
    rfl

theorem foldl_dictSet_eq_append :
    ∀ (recs acc : List (String × PkgInfo)),
    recs.Pairwise (fun a b => a.1 ≠ b.1) → (∀ p ∈ recs, ∀ q ∈ acc, q.1 ≠ p.1) →
    recs.foldl (fun P p => dictSet P p.1 p.2) acc = acc ++ recs := by
  intro recs
  induction recs with
  | nil => intro acc _ _; simp
  | cons p t ih =>
    intro acc hnodup hdisj
    rw [List.foldl_cons,
      dictSet_absent p.2 (fun q hq => hdisj p (List.mem_cons_self _ _) q hq)]
    rw [show acc ++ [(p.1, p.2)] = acc ++ [p] from rfl]
    rw [ih (acc ++ [p]) (List.pairwise_cons.mp hnodup).2 ?_]
    · simp
    · intro p' hp' q hq
      rcases List.mem_append.mp hq with hq' | hq'
      · exact hdisj p' (List.mem_cons_of_mem _ hp') q hq'
      · rw [List.mem_singleton.mp hq']
        exact (List.pairwise_cons.mp hnodup).1 p' hp'

/-- Writing any strictly key-sorted, well-behaved combined mapping and parsing
it back reconstructs the mapping exactly. -/
theorem write_parse_roundtrip (m : List (String × PkgInfo))
    (hsorted : m.Pairwise (fun a b => strLe a.1 b.1 = true ∧ a.1 ≠ b.1))
    (hgood : ∀ p ∈ m, goodNameB p.1 = true ∧ (∀ l ∈ p.2.layers, goodLayerB l = true) ∧
      (∀ d ∈ p.2.dependencies, goodNameB d = true)) :
    parse_combined_output (output_combined_data m) = m := by
  have hsort_id : m.insertionSort pairKeyLe = m :=
    List.Sorted.insertionSort_eq (hsorted.imp (fun h => h.1))
  unfold parse_combined_output output_combined_data
  rw [hsort_id]
  rw [show headerLines ++ ((m.map (packageBlock m)).flatten) =
    "Package Dependency and Layer Information" :: (String.mk (List.replicate 80 '=')) ::
      "" :: ((m.map (packageBlock m)).flatten) from rfl]
  rw [List.foldl_cons, rstep_header_title, List.foldl_cons, rstep_header_rule,
    List.foldl_cons, rstep_blank]
  rw [foldl_rstep_blocks m m (RState.mk [] none false) hgood]
  rw [foldl_dictSet_eq_append m [] (hsorted.imp (fun h => h.2)) (by intro p _ q hq; cases hq)]
  rfl

/-- C1 (amended): the round-trip
`parse_combined_output (output_combined_data (combine_data ...))` reconstructs
the combined records exactly (dependency layer annotations discarded), provided
every package name in the combined mapping is nonempty and free of whitespace
and `'('`, and every layer label is nonempty and free of whitespace, `','`,
`':'` and `'('`. -/
theorem c1_roundtrip_amended (E L : List String)
    (hgood : ∀ p ∈ combine_data (parse_dot_file E) (parse_layers_file L),
      goodNameB p.1 = true ∧ (∀ l ∈ p.2.layers, goodLayerB l = true) ∧
      (∀ d ∈ p.2.dependencies, goodNameB d = true)) :
    parse_combined_output (output_combined_data
      (combine_data (parse_dot_file E) (parse_layers_file L))) =
      combine_data (parse_dot_file E) (parse_layers_file L) :=
  write_parse_roundtrip _ (combine_data_pairwise _ _) hgood

/-- Witness for C1 (amended) on the spec's worked example. -/
theorem c1_roundtrip_witness :
    parse_combined_output (output_combined_data (combine_data
      (parse_dot_file ["\"lib32-foo\" -> \"bar\";", "\"bar\" -> \"baz\";"])
      (parse_layers_file ["foo:", "  core", "bar:", "  extra"]))) =
      combine_data (parse_dot_file ["\"lib32-foo\" -> \"bar\";", "\"bar\" -> \"baz\";"])
        (parse_layers_file ["foo:", "  core", "bar:", "  extra"]) :=
  c1_roundtrip_amended _ _ (by decide)
